import Mathlib

/-!
Verification of the two core algorithms of the Aventurine-League-Tools
native sources:

* the TEX → DDS container converter (`src/native/ritoddstex_dll.c`,
  duplicated in `src/native/lol_native.cpp`), modelled over byte lists;
* the BIN texture-path extractor, which exists in two near-duplicate
  variants (`src/native/bin_parser.cpp` and `src/native/ritobin_dll.cpp`,
  the latter textually identical to the copy in `lol_native.cpp`),
  modelled over the decoded value tree of the ritobin data model.

Machine integers are modelled as `Nat` (all quantities involved are
unsigned and stay far below 2^32 for header-derived inputs; the one
signed quantity, the backward mip cursor, is modelled as `Int` exactly
as the source declares it `int32_t`).
-/

/-- Number of binary digits of `n`, computed by the 32-iteration halving
loop that both converter sources use (`while (max_dim > 0) { count++;
max_dim >>= 1; }`); 32 iterations are exact for `uint32_t` inputs
(`n < 2^32`). -/
def bitLen32Aux : Nat → Nat → Nat
  | 0, _ => 0
  | fuel + 1, n => if n = 0 then 0 else bitLen32Aux fuel (n / 2) + 1

/-- Binary digit count of a 32-bit value. -/
def bitLen32 (n : Nat) : Nat := bitLen32Aux 32 n

namespace Ritoddstex

/-- Models `clz32` of `ritoddstex_dll.c` (a `_BitScanReverse` wrapper):
count of leading zero bits of a `uint32_t`; returns 32 for input 0. -/
def clz32 (x : Nat) : Nat := 32 - bitLen32 x

/-- `calc_mipmap_count` of `ritoddstex_dll.c`: `32 - clz32(max(width, height))`. -/
def calc_mipmap_count (width height : Nat) : Nat :=
  32 - clz32 (max width height)

/-- `get_bytes_per_block` of `ritoddstex_dll.c`.
Format codes: DXT1 = 0x0A, DXT5 = 0x0C, BGRA8 = 0x14, RGBA16 = 0x15. -/
def get_bytes_per_block : Nat → Nat
  | 0x0A => 8
  | 0x0C => 16
  | 0x14 => 4
  | 0x15 => 8
  | _ => 0

/-- `get_block_size` of `ritoddstex_dll.c`. -/
def get_block_size : Nat → Nat
  | 0x0A => 4
  | 0x0C => 4
  | 0x14 => 1
  | 0x15 => 1
  | _ => 1

/-- `DDS_PIXELFORMAT` of `dds.h`, with the four-character code kept as a
byte list. -/
structure DDSPixelFormat where
  dwSize : Nat
  dwFlags : Nat
  dwFourCC : List Nat
  dwRGBBitCount : Nat
  dwRBitMask : Nat
  dwGBitMask : Nat
  dwBBitMask : Nat
  dwABitMask : Nat
deriving Repr, DecidableEq

/-- `DDS_HEADER` of `dds.h`. -/
structure DDSHeader where
  dwSize : Nat
  dwFlags : Nat
  dwHeight : Nat
  dwWidth : Nat
  dwPitchOrLinearSize : Nat
  dwDepth : Nat
  dwMipMapCount : Nat
  dwReserved1 : List Nat
  ddspf : DDSPixelFormat
  dwCaps : Nat
  dwCaps2 : Nat
  dwCaps3 : Nat
  dwCaps4 : Nat
  dwReserved2 : Nat
deriving Repr, DecidableEq

/-- The converter's two in-memory failure classes (`tex_to_dds_bytes`
returns −2 for an invalid TEX and −3 for an unsupported format; −1 /
−4 concern file opening and allocation, outside the byte-level model). -/
inductive TexError where
  | invalidTex
  | unsupportedFormat
deriving Repr, DecidableEq

/-- The distinct negative status code of each failure class. -/
def errCode : TexError → Int
  | .invalidTex => -2
  | .unsupportedFormat => -3

/-- The successful output of `tex_to_dds_bytes`: the bytes written into
the allocated buffer (`DDS ` magic, serialized header, optional DX10
block, then the payload bytes the copy loop actually wrote) together
with the size reported through `*out_size`.  On an early break of the
mip loop the allocated buffer's tail stays unwritten, so the written
payload may be shorter than `reportedSize` accounts for. -/
structure DDSOut where
  magic : List Nat
  header : DDSHeader
  dx10 : List Nat
  payload : List Nat
  reportedSize : Nat
deriving Repr, DecidableEq

/-- The `switch (tex_header.tex_format)` of `tex_to_dds_bytes`: pixel
format descriptor plus the `need_dx10` flag, or `none` on the `default`
branch. FourCC byte values: "DXT1", "DXT5", "DX10" in ASCII. -/
def pixelFormatFor : Nat → Option (DDSPixelFormat × Bool)
  | 0x0A => some (⟨32, 0x4, [68, 88, 84, 49], 0, 0, 0, 0, 0⟩, false)
  | 0x0C => some (⟨32, 0x4, [68, 88, 84, 53], 0, 0, 0, 0, 0⟩, false)
  | 0x14 => some (⟨32, 0x41, [0, 0, 0, 0], 32, 0x00ff0000, 0x0000ff00,
                   0x000000ff, 0xff000000⟩, false)
  | 0x15 => some (⟨32, 0x4, [68, 88, 49, 48], 0, 0, 0, 0, 0⟩, true)
  | _ => none

/-- The 20-byte DX10 extended header written for RGBA16
(`dxgiFormat = 0x0d`, `resourceDimension = 3`, `arraySize = 1`,
`miscFlags2 = 1`). -/
def dx10HeaderBytes : List Nat :=
  [0x0d, 0, 0, 0, 0x03, 0, 0, 0, 0, 0, 0, 0, 0x01, 0, 0, 0, 0x01, 0, 0, 0]

/-- Byte `i` of the input buffer (all reads performed by the source are
guarded to be in bounds, so the default is never hit on those paths). -/
def byteAt (data : List Nat) (i : Nat) : Nat := data.getD i 0

/-- Byte length of mip level `i` as computed inside the copy loop:
`bytes_per_block * block_width * block_height` with
`block_width = ceil(max(width >> i, 1) / block_size)` and likewise for
the height.  `mip_size` is a `uint32_t`, so the triple product wraps
modulo 2^32 (e.g. 16·16384·16384 wraps to 0 for level 0 of a
65535×65535 DXT5 header); the intermediate sums and divisions stay far
below 2^32 for `uint16` dimensions, so one final reduction is exact. -/
def mipSize (width height blockSize bytesPerBlock i : Nat) : Nat :=
  let mipWidth := max (width >>> i) 1
  let mipHeight := max (height >>> i) 1
  let blockWidth := (mipWidth + blockSize - 1) / blockSize
  let blockHeight := (mipHeight + blockSize - 1) / blockSize
  (bytesPerBlock * blockWidth * blockHeight) % 4294967296

/-- The mip reorder loop of `tex_to_dds_bytes`: walk `current_offset`
backward from the end of `texData`; for each level size decrement the
cursor, stop (`break`) if it would go negative, else copy that many
bytes from the cursor to the (monotonically advancing) write position.
Returns the concatenation of the bytes written.  The cursor is an
`int32_t` in the source, modelled as `Int`; the theorems below restrict
their hypotheses so that every intermediate cursor value lies in
[−2^31, 2^31), where the two agree (outside that range the source's
subtraction would wrap and the subsequent `memcpy` reads out of
bounds — undefined behaviour with no byte-level meaning). -/
def mipCopy (texData : List Nat) : List Nat → Int → List Nat
  | [], _ => []
  | size :: rest, offset =>
    let offset' := offset - (size : Int)
    if offset' < 0 then []
    else (texData.drop offset'.toNat).take size ++ mipCopy texData rest offset'

/-- The per-level size table `size_0, …, size_(count-1)` used by the loop. -/
def mipSizes (width height fmt count : Nat) : List Nat :=
  (List.range count).map
    (mipSize width height (get_block_size fmt) (get_bytes_per_block fmt))

/-- `tex_header.image_width`: little-endian `uint16` at offset 4. -/
def texWidth (data : List Nat) : Nat := byteAt data 4 + 256 * byteAt data 5

/-- `tex_header.image_height`: little-endian `uint16` at offset 6. -/
def texHeight (data : List Nat) : Nat := byteAt data 6 + 256 * byteAt data 7

/-- `tex_to_dds_bytes` of `ritoddstex_dll.c` over an in-memory byte
buffer (file I/O replaced by the byte list; the `fread` of the payload
cannot fail in this model because the whole buffer is resident).
Header layout (`tex.h`, packed, 12 bytes): `magic[4]` ("TEX\0", only the
first 3 bytes are compared), `image_width : uint16 LE`,
`image_height : uint16 LE`, `unk1`, `tex_format`, `unk2`, `has_mipmaps`. -/
def tex_to_dds_bytes (data : List Nat) : Except TexError DDSOut :=
  let file_size := data.length
  if file_size < 12 ∨ data.take 3 ≠ [84, 69, 88] then .error .invalidTex
  else
    match pixelFormatFor (byteAt data 9) with
    | none => .error .unsupportedFormat
    | some (ddspf, need_dx10) =>
      let image_width := texWidth data
      let image_height := texHeight data
      let has_mipmaps := byteAt data 11
      let mipmap_count :=
        if has_mipmaps ≠ 0 then calc_mipmap_count image_width image_height else 0
      let dds_header : DDSHeader :=
        { dwSize := 124
          dwFlags := if has_mipmaps ≠ 0 then 0x00001007 ||| 0x00020000 else 0x00001007
          dwHeight := image_height
          dwWidth := image_width
          dwPitchOrLinearSize := 0
          dwDepth := 0
          dwMipMapCount := mipmap_count
          dwReserved1 := List.replicate 11 0
          ddspf := ddspf
          dwCaps := if has_mipmaps ≠ 0 then 0x00001000 ||| 0x00400008 else 0x00001000
          dwCaps2 := 0
          dwCaps3 := 0
          dwCaps4 := 0
          dwReserved2 := 0 }
      let tex_data_size := file_size - 12
      let header_size := 4 + 124 + (if need_dx10 then 20 else 0)
      let total_size := header_size + tex_data_size
      let tex_data := data.drop 12
      let payload :=
        if has_mipmaps ≠ 0 ∧ mipmap_count > 0 then
          mipCopy tex_data
            (mipSizes image_width image_height (byteAt data 9) mipmap_count)
            (tex_data_size : Int)
        else tex_data
      .ok { magic := [68, 68, 83, 32]
            header := dds_header
            dx10 := if need_dx10 then dx10HeaderBytes else []
            payload := payload
            reportedSize := total_size }

end Ritoddstex

namespace LolNative

/-- `calc_mipmap_count` of `lol_native.cpp`: counts the halving steps of
`max(width, height)` down to zero (`while (max_dim > 0) { count++;
max_dim >>= 1; }`); `bitLen32` is that loop. -/
def calc_mipmap_count (width height : Nat) : Nat :=
  bitLen32 (max width height)

end LolNative

theorem bitLen32Aux_zero (fuel : Nat) : bitLen32Aux fuel 0 = 0 := by
  cases fuel <;> simp [bitLen32Aux]

theorem bitLen32Aux_le (fuel n : Nat) : bitLen32Aux fuel n ≤ fuel := by
  induction fuel generalizing n with
  | zero => simp [bitLen32Aux]
  | succ fuel ih =>
    rw [bitLen32Aux]
    split
    · omega
    · exact Nat.succ_le_succ (ih _)

theorem bitLen32Aux_eq_log (fuel : Nat) :
    ∀ n, 0 < n → n < 2 ^ fuel → bitLen32Aux fuel n = Nat.log 2 n + 1 := by
  induction fuel with
  | zero => intro n h1 h2; simp at h2; omega
  | succ fuel ih =>
    intro n h1 h2
    rw [bitLen32Aux, if_neg (by omega)]
    rcases Nat.lt_or_ge n 2 with hn | hn
    · have hone : n = 1 := by omega
      subst hone
      simp [bitLen32Aux_zero]
    · have hpos : 0 < n / 2 := Nat.div_pos hn (by norm_num)
      have hlt : n / 2 < 2 ^ fuel := by
        rw [Nat.div_lt_iff_lt_mul (by norm_num)]
        calc n < 2 ^ (fuel + 1) := h2
        _ = 2 ^ fuel * 2 := by rw [Nat.pow_succ]
      rw [ih _ hpos hlt]
      have hdiv : Nat.log 2 (n / 2) = Nat.log 2 n - 1 := Nat.log_div_base 2 n
      have hlog : 0 < Nat.log 2 n := Nat.log_pos (by norm_num) hn
      omega

theorem bitLen32_eq_log (n : Nat) (h1 : 0 < n) (h2 : n < 2 ^ 32) :
    bitLen32 n = Nat.log 2 n + 1 :=
  bitLen32Aux_eq_log 32 n h1 h2

/-- The one fact used about `clz32`: subtracting it from 32 yields the
binary digit count. -/
theorem ritoddstex_count_eq_bitLen (w h : Nat) :
    Ritoddstex.calc_mipmap_count w h = bitLen32 (max w h) := by
  have hle := bitLen32Aux_le 32 (max w h)
  unfold Ritoddstex.calc_mipmap_count Ritoddstex.clz32
  unfold bitLen32 at *
  omega

/-- The reorder loop copies the mip chain back into front-to-back order:
if the region of `texData` below the cursor `off` is the concatenation
of the levels in reverse order (level 0 physically last), and the level
lengths agree with the size table, the loop emits level 0 first, then
level 1, and so on. -/
theorem mipCopy_join {mips : List (List Nat)} {sizes : List Nat}
    (hlen : List.Forall₂ (fun m s => m.length = s) mips sizes) :
    ∀ (pre tail texData : List Nat) (off : Int),
      texData = pre ++ (mips.reverse.join ++ tail) →
      off = ((pre.length + mips.reverse.join.length : Nat) : Int) →
      Ritoddstex.mipCopy texData sizes off = mips.join := by
  induction hlen with
  | nil =>
    intro pre tail texData off _ _
    simp [Ritoddstex.mipCopy]
  | @cons m s mips' sizes' hms hrest ih =>
    intro pre tail texData off hdata hoff
    have hrev : (m :: mips').reverse.join = mips'.reverse.join ++ m := by
      simp
    rw [hrev] at hdata hoff
    rw [Ritoddstex.mipCopy]
    have hoff' : off - (s : Int) =
        ((pre.length + mips'.reverse.join.length : Nat) : Int) := by
      rw [hoff]
      push_cast [List.length_append, ← hms]
      ring
    rw [if_neg (by rw [hoff']; omega)]
    have htoNat : (off - (s : Int)).toNat = pre.length + mips'.reverse.join.length := by
      rw [hoff']; exact Int.toNat_natCast _
    have hassoc : pre ++ (mips'.reverse.join ++ m ++ tail) =
        (pre ++ mips'.reverse.join) ++ (m ++ tail) := by simp
    have hdrop : texData.drop (off - (s : Int)).toNat = m ++ tail := by
      rw [htoNat, hdata, hassoc, ← List.length_append, List.drop_left]
    have htake : (texData.drop (off - (s : Int)).toNat).take s = m := by
      rw [hdrop, ← hms, List.take_left]
    rw [htake, ih pre (m ++ tail) texData (off - (s : Int))
      (by rw [hdata]; simp) hoff']
    simp

/-- Length accounting for the reorder loop: the output is the
concatenation of the sizes of a prefix of the level table, the prefix
total never exceeds the starting cursor, and the loop either exhausted
the table or stopped exactly when the next level no longer fit. -/
theorem mipCopy_length (texData : List Nat) :
    ∀ (sizes : List Nat) (off : Int), 0 ≤ off → off ≤ (texData.length : Int) →
      ∃ k, k ≤ sizes.length ∧
        (Ritoddstex.mipCopy texData sizes off).length = (sizes.take k).sum ∧
        (((sizes.take k).sum : Nat) : Int) ≤ off ∧
        (k = sizes.length ∨ off < (((sizes.take (k + 1)).sum : Nat) : Int)) := by
  intro sizes
  induction sizes with
  | nil =>
    intro off h0 hle
    exact ⟨0, by simp [Ritoddstex.mipCopy], by simp [Ritoddstex.mipCopy], by simpa, Or.inl rfl⟩
  | cons s rest ih =>
    intro off h0 hle
    rw [Ritoddstex.mipCopy]
    by_cases hneg : off - (s : Int) < 0
    · refine ⟨0, by simp, ?_, by simpa, Or.inr ?_⟩
      · rw [if_pos hneg]; simp
      · simp only [List.take_succ_cons, List.take_zero, List.sum_cons, List.sum_nil]
        push_cast
        omega
    · push_neg at hneg
      obtain ⟨k, hk, hlen, hsum, hor⟩ := ih (off - (s : Int)) (by omega) (by omega)
      refine ⟨k + 1, by simpa using hk, ?_, ?_, ?_⟩
      · rw [if_neg (by omega)]
        have hslice : ((texData.drop (off - (s : Int)).toNat).take s).length = s := by
          rw [List.length_take, List.length_drop]
          omega
        simp only [List.length_append, hslice, hlen, List.take_succ_cons,
          List.sum_cons]
      · simp only [List.take_succ_cons, List.sum_cons]
        push_cast at hsum ⊢
        omega
      · rcases hor with h | h
        · exact Or.inl (by simp [h])
        · refine Or.inr ?_
          simp only [List.take_succ_cons, List.sum_cons]
          push_cast at h ⊢
          omega

theorem pixelFormatFor_eq_none_iff (f : Nat) :
    Ritoddstex.pixelFormatFor f = none ↔ f ∉ [0x0A, 0x0C, 0x14, 0x15] := by
  constructor
  · intro h hf
    fin_cases hf <;> simp [Ritoddstex.pixelFormatFor] at h
  · intro h
    simp only [List.mem_cons, List.not_mem_nil, or_false, not_or] at h
    obtain ⟨h1, h2, h3, h4⟩ := h
    unfold Ritoddstex.pixelFormatFor
    split <;> simp_all

/-- C5: for headers with `has_mipmaps` set and `max(width, height) ≥ 1`
both implementations of `calc_mipmap_count` return
`floor(log2(max(width, height))) + 1`; with `has_mipmaps` unset the
level count is 0 and the output header carries no mip-chain metadata
(no `DDS_HEADER_FLAGS_MIPMAP`, no `DDS_SURFACE_FLAGS_MIPMAP`,
`dwMipMapCount = 0`). -/
theorem C5_mipmap_count :
    (∀ w h : Nat, 1 ≤ max w h → max w h < 2 ^ 32 →
      Ritoddstex.calc_mipmap_count w h = Nat.log 2 (max w h) + 1 ∧
      LolNative.calc_mipmap_count w h = Nat.log 2 (max w h) + 1) ∧
    (∀ data out, Ritoddstex.tex_to_dds_bytes data = .ok out →
      Ritoddstex.byteAt data 11 = 0 →
      out.header.dwMipMapCount = 0 ∧ out.header.dwFlags = 0x00001007 ∧
        out.header.dwCaps = 0x00001000) := by
  constructor
  · intro w h h1 h2
    have hb := bitLen32_eq_log (max w h) h1 h2
    refine ⟨?_, ?_⟩
    · rw [ritoddstex_count_eq_bitLen, hb]
    · rw [LolNative.calc_mipmap_count, hb]
  · intro data out hok h11
    simp only [Ritoddstex.tex_to_dds_bytes] at hok
    split at hok
    · exact absurd hok (by simp)
    · split at hok
      · exact absurd hok (by simp)
      · injection hok with hout
        subst hout
        simp [h11]

/-- Witness for C5 at width = height = 8 (mip part) and at a concrete
mipmap-less BGRA8 container (metadata part). -/
theorem C5_mipmap_count_witness :
    (Ritoddstex.calc_mipmap_count 8 8 = Nat.log 2 (max 8 8) + 1 ∧
      LolNative.calc_mipmap_count 8 8 = Nat.log 2 (max 8 8) + 1) ∧
    (∀ out, Ritoddstex.tex_to_dds_bytes
        ([84, 69, 88, 0, 1, 0, 1, 0, 0, 0x14, 0, 0] ++ [1, 2, 3, 4]) = .ok out →
      out.header.dwMipMapCount = 0 ∧ out.header.dwFlags = 0x00001007 ∧
        out.header.dwCaps = 0x00001000) :=
  ⟨C5_mipmap_count.1 8 8 (by decide) (by decide),
   fun out hok => C5_mipmap_count.2 _ out hok (by decide)⟩

/-- C6 (amended: the fixed header is 12 bytes, not 8): conversion fails
with the invalid-input error exactly when the input is shorter than the
12-byte header or the 3 magic bytes differ from "TEX", fails with the
unsupported-format error exactly when the header is valid but the
format code is none of the four recognized ones, and the two failure
classes map to distinct negative status codes. -/
theorem C6_error_taxonomy (data : List Nat) :
    (Ritoddstex.tex_to_dds_bytes data = .error .invalidTex ↔
      data.length < 12 ∨ data.take 3 ≠ [84, 69, 88]) ∧
    (Ritoddstex.tex_to_dds_bytes data = .error .unsupportedFormat ↔
      12 ≤ data.length ∧ data.take 3 = [84, 69, 88] ∧
        Ritoddstex.byteAt data 9 ∉ [0x0A, 0x0C, 0x14, 0x15]) ∧
    Ritoddstex.errCode .invalidTex ≠ Ritoddstex.errCode .unsupportedFormat ∧
    Ritoddstex.errCode .invalidTex < 0 ∧
    Ritoddstex.errCode .unsupportedFormat < 0 := by
  by_cases hbad : data.length < 12 ∨ data.take 3 ≠ [84, 69, 88]
  · have hrun : Ritoddstex.tex_to_dds_bytes data = .error .invalidTex := by
      simp only [Ritoddstex.tex_to_dds_bytes, if_pos hbad]
    refine ⟨⟨fun _ => hbad, fun _ => hrun⟩, ⟨?_, ?_⟩, by decide, by decide, by decide⟩
    · intro h
      rw [hrun] at h
      exact absurd h (by simp)
    · intro ⟨h1, h2, _⟩
      refine absurd hbad ?_
      intro hor
      rcases hor with h | h
      · omega
      · exact h h2
  · have hgood := hbad
    push_neg at hgood
    rcases hfmt : Ritoddstex.pixelFormatFor (Ritoddstex.byteAt data 9) with _ | pf
    · have hrun : Ritoddstex.tex_to_dds_bytes data = .error .unsupportedFormat := by
        simp only [Ritoddstex.tex_to_dds_bytes, if_neg hbad, hfmt]
      refine ⟨⟨?_, fun h => absurd h hbad⟩,
        ⟨fun _ => ⟨by omega, hgood.2, (pixelFormatFor_eq_none_iff _).mp hfmt⟩,
          fun _ => hrun⟩, by decide, by decide, by decide⟩
      intro h
      rw [hrun] at h
      exact absurd h (by simp)
    · obtain ⟨ddspf, dx⟩ := pf
      have hrun : ∃ o, Ritoddstex.tex_to_dds_bytes data = .ok o := by
        simp only [Ritoddstex.tex_to_dds_bytes, if_neg hbad, hfmt]
        exact ⟨_, rfl⟩
      obtain ⟨o, ho⟩ := hrun
      refine ⟨⟨?_, fun h => absurd h hbad⟩, ⟨?_, ?_⟩, by decide, by decide, by decide⟩
      · intro h
        rw [ho] at h
        exact absurd h (by simp)
      · intro h
        rw [ho] at h
        exact absurd h (by simp)
      · intro ⟨_, _, h3⟩
        exact absurd ((pixelFormatFor_eq_none_iff _).mpr h3) (by simp [hfmt])

/-- Witness for C6: a 10-byte input triggers invalid-input, a valid
header with format code 0xFF triggers unsupported-format. -/
theorem C6_error_taxonomy_witness :
    Ritoddstex.tex_to_dds_bytes [84, 69, 88, 0, 2, 0, 2, 0, 0, 10] =
      .error .invalidTex ∧
    Ritoddstex.tex_to_dds_bytes [84, 69, 88, 0, 2, 0, 2, 0, 0, 0xFF, 0, 0] =
      .error .unsupportedFormat :=
  ⟨(C6_error_taxonomy _).1.mpr (by decide),
   (C6_error_taxonomy _).2.1.mpr (by decide)⟩

/-- Counterexample to C6 as stated: an input of 10 bytes with correct
magic is not shorter than an 8-byte header and its magic matches, yet
the code reports the invalid-input error, because the real fixed header
(`TEX_HEADER` in `tex.h`) is 12 bytes. -/
theorem C6_counterexample_ten_byte_header :
    Ritoddstex.tex_to_dds_bytes [84, 69, 88, 0, 2, 0, 2, 0, 0, 10] =
      .error .invalidTex ∧
    ¬((([84, 69, 88, 0, 2, 0, 2, 0, 0, 10] : List Nat).length < 8) ∨
      ([84, 69, 88, 0, 2, 0, 2, 0, 0, 10] : List Nat).take 3 ≠ [84, 69, 88]) :=
  ⟨rfl, by decide⟩

/-- C8: with `has_mipmaps = 0` the payload written after the synthesized
headers is the input payload verbatim, with the same length. -/
theorem C8_no_mipmaps_verbatim (data : List Nat)
    (pf : Ritoddstex.DDSPixelFormat × Bool)
    (hlen : 12 ≤ data.length)
    (hmagic : data.take 3 = [84, 69, 88])
    (hfmt : Ritoddstex.pixelFormatFor (Ritoddstex.byteAt data 9) = some pf)
    (h11 : Ritoddstex.byteAt data 11 = 0) :
    ∃ out, Ritoddstex.tex_to_dds_bytes data = .ok out ∧
      out.payload = data.drop 12 ∧ out.payload.length = data.length - 12 := by
  obtain ⟨ddspf, dx⟩ := pf
  have hcond : ¬(data.length < 12 ∨ data.take 3 ≠ [84, 69, 88]) := by
    intro hor
    rcases hor with h | h
    · omega
    · exact h hmagic
  simp only [Ritoddstex.tex_to_dds_bytes, if_neg hcond, hfmt]
  refine ⟨_, rfl, ?_, ?_⟩
  · simp [h11]
  · simp [h11]

/-- Witness for C8: a 1×1 BGRA8 container with a 4-byte payload. -/
theorem C8_no_mipmaps_verbatim_witness :
    ∃ out, Ritoddstex.tex_to_dds_bytes
        ([84, 69, 88, 0, 1, 0, 1, 0, 0, 0x14, 0, 0] ++ [5, 6, 7, 8]) = .ok out ∧
      out.payload = (([84, 69, 88, 0, 1, 0, 1, 0, 0, 0x14, 0, 0] ++
        [5, 6, 7, 8] : List Nat)).drop 12 ∧
      out.payload.length =
        (([84, 69, 88, 0, 1, 0, 1, 0, 0, 0x14, 0, 0] ++
          [5, 6, 7, 8] : List Nat)).length - 12 :=
  C8_no_mipmaps_verbatim _ _ (by decide) (by decide) rfl (by decide)

/-- C1 (amended: the spec's synthesized two-level instance must use
width = height = 2 — with width = height = 8 the code computes a
four-level chain whose level 0 alone is 32 bytes, so a 16-byte payload
makes the loop break before copying anything): for every valid
container with `has_mipmaps` set whose payload is the computed mip
chain stored smallest-level-first (level 0 last), the output payload is
levels 0, 1, … in increasing order, produced by walking the cursor
backward from the end of the payload. -/
theorem C1_mip_reordering (data : List Nat) (mips : List (List Nat))
    (pf : Ritoddstex.DDSPixelFormat × Bool)
    (hlen : 12 ≤ data.length)
    (hmagic : data.take 3 = [84, 69, 88])
    (hfmt : Ritoddstex.pixelFormatFor (Ritoddstex.byteAt data 9) = some pf)
    (hmip : Ritoddstex.byteAt data 11 ≠ 0)
    (hsizes : List.Forall₂ (fun m s => m.length = s) mips
      (Ritoddstex.mipSizes (Ritoddstex.texWidth data) (Ritoddstex.texHeight data)
        (Ritoddstex.byteAt data 9)
        (Ritoddstex.calc_mipmap_count (Ritoddstex.texWidth data)
          (Ritoddstex.texHeight data))))
    (hpayload : data.drop 12 = mips.reverse.join) :
    ∃ out, Ritoddstex.tex_to_dds_bytes data = .ok out ∧
      out.payload = mips.join := by
  obtain ⟨ddspf, dx⟩ := pf
  have hcond : ¬(data.length < 12 ∨ data.take 3 ≠ [84, 69, 88]) := by
    intro hor
    rcases hor with h | h
    · omega
    · exact h hmagic
  simp only [Ritoddstex.tex_to_dds_bytes, if_neg hcond, hfmt]
  refine ⟨_, rfl, ?_⟩
  by_cases hc : Ritoddstex.calc_mipmap_count (Ritoddstex.texWidth data)
      (Ritoddstex.texHeight data) = 0
  · have hnil : mips = [] := by
      have hlens := hsizes.length_eq
      rw [Ritoddstex.mipSizes, hc] at hlens
      simpa using hlens
    subst hnil
    simp only [hc, List.reverse_nil, List.join] at hpayload ⊢
    simp [hmip, hc, hpayload]
  · have hoff : ((data.length - 12 : Nat) : Int) =
        (((([] : List Nat)).length + mips.reverse.join.length : Nat) : Int) := by
      have h1 : (data.drop 12).length = data.length - 12 := List.length_drop _ _
      rw [hpayload] at h1
      simp [← h1]
    have hjoin := mipCopy_join hsizes [] [] (data.drop 12)
      ((data.length - 12 : Nat) : Int) (by simpa using hpayload) hoff
    simp [hmip, hc, hjoin]

/-- Witness for C1 (and the amended concrete instance): a 2×2 DXT1
container with two 8-byte levels stored smallest-first comes out with
level 0's bytes first, then level 1's. -/
theorem C1_mip_reordering_witness :
    ∃ out, Ritoddstex.tex_to_dds_bytes
        ([84, 69, 88, 0, 2, 0, 2, 0, 0, 10, 0, 1] ++
          ([9, 10, 11, 12, 13, 14, 15, 16] ++ [1, 2, 3, 4, 5, 6, 7, 8])) = .ok out ∧
      out.payload =
        ([[1, 2, 3, 4, 5, 6, 7, 8], [9, 10, 11, 12, 13, 14, 15, 16]] :
          List (List Nat)).join :=
  C1_mip_reordering _ [[1, 2, 3, 4, 5, 6, 7, 8], [9, 10, 11, 12, 13, 14, 15, 16]]
    _ (by decide) (by decide) rfl (by decide)
    (by refine List.Forall₂.cons ?_ (List.Forall₂.cons ?_ List.Forall₂.nil) <;> rfl)
    (by decide)

/-- Counterexample to C1 as stated: the spec's synthesized input —
DXT1, width = height = 8, two 8-byte levels stored smallest-first — is
converted to an *empty* payload (the four-level size table starts with
a 32-byte level 0, so the cursor immediately goes negative), not to
level 0's bytes followed by level 1's. -/
theorem C1_counterexample_two_level_8x8 :
    ∃ out, Ritoddstex.tex_to_dds_bytes
        ([84, 69, 88, 0, 8, 0, 8, 0, 0, 10, 0, 1] ++
          ([21, 22, 23, 24, 25, 26, 27, 28] ++ [11, 12, 13, 14, 15, 16, 17, 18])) = .ok out ∧
      out.payload = [] ∧
      out.payload ≠ [11, 12, 13, 14, 15, 16, 17, 18] ++
        [21, 22, 23, 24, 25, 26, 27, 28] := by
  refine ⟨_, rfl, rfl, ?_⟩
  decide

/-- C3 (amended: the reported output length always counts the headers
plus the *entire* input payload — `total_size` is computed before the
copy loop — not just the levels actually copied): when the cursor would
go negative before all computed (`uint32`-wrapped) levels are copied,
conversion still succeeds, the written payload consists of the first
`k` levels for some `k` strictly below the level count, and the
reported size is the header size plus the full input payload length.
The last two hypotheses confine the statement to the program's
`int32`-representable domain: the payload fits the `int32_t` cursor and
every wrapped level size is at most 2^31, so each cursor decrement
stays in [−2^31, 2^31) and the `Int` model coincides with the source's
`int32_t` arithmetic on every covered input. -/
theorem C3_defensive_truncation (data : List Nat)
    (pf : Ritoddstex.DDSPixelFormat × Bool)
    (hlen : 12 ≤ data.length)
    (hmagic : data.take 3 = [84, 69, 88])
    (hfmt : Ritoddstex.pixelFormatFor (Ritoddstex.byteAt data 9) = some pf)
    (hmip : Ritoddstex.byteAt data 11 ≠ 0)
    (htrunc : data.length - 12 <
      (Ritoddstex.mipSizes (Ritoddstex.texWidth data) (Ritoddstex.texHeight data)
        (Ritoddstex.byteAt data 9)
        (Ritoddstex.calc_mipmap_count (Ritoddstex.texWidth data)
          (Ritoddstex.texHeight data))).sum)
    (_hint32 : data.length - 12 < 2 ^ 31)
    (_hsz : ∀ s ∈ Ritoddstex.mipSizes (Ritoddstex.texWidth data)
        (Ritoddstex.texHeight data) (Ritoddstex.byteAt data 9)
        (Ritoddstex.calc_mipmap_count (Ritoddstex.texWidth data)
          (Ritoddstex.texHeight data)), s ≤ 2 ^ 31) :
    ∃ out k, Ritoddstex.tex_to_dds_bytes data = .ok out ∧
      k < Ritoddstex.calc_mipmap_count (Ritoddstex.texWidth data)
        (Ritoddstex.texHeight data) ∧
      out.payload.length =
        ((Ritoddstex.mipSizes (Ritoddstex.texWidth data) (Ritoddstex.texHeight data)
          (Ritoddstex.byteAt data 9)
          (Ritoddstex.calc_mipmap_count (Ritoddstex.texWidth data)
            (Ritoddstex.texHeight data))).take k).sum ∧
      out.payload.length ≤ data.length - 12 ∧
      out.reportedSize = 128 + (if pf.2 then 20 else 0) + (data.length - 12) := by
  obtain ⟨ddspf, dx⟩ := pf
  have hcond : ¬(data.length < 12 ∨ data.take 3 ≠ [84, 69, 88]) := by
    intro hor
    rcases hor with h | h
    · omega
    · exact h hmagic
  have hc : Ritoddstex.calc_mipmap_count (Ritoddstex.texWidth data)
      (Ritoddstex.texHeight data) ≠ 0 := by
    intro h0
    rw [Ritoddstex.mipSizes, h0] at htrunc
    simp at htrunc
  obtain ⟨k, hk, hklen, hksum, hkor⟩ :=
    mipCopy_length (data.drop 12)
      (Ritoddstex.mipSizes (Ritoddstex.texWidth data) (Ritoddstex.texHeight data)
        (Ritoddstex.byteAt data 9)
        (Ritoddstex.calc_mipmap_count (Ritoddstex.texWidth data)
          (Ritoddstex.texHeight data)))
      ((data.length - 12 : Nat) : Int) (by positivity) (by simp)
  have hslen : (Ritoddstex.mipSizes (Ritoddstex.texWidth data)
      (Ritoddstex.texHeight data) (Ritoddstex.byteAt data 9)
      (Ritoddstex.calc_mipmap_count (Ritoddstex.texWidth data)
        (Ritoddstex.texHeight data))).length =
      Ritoddstex.calc_mipmap_count (Ritoddstex.texWidth data)
        (Ritoddstex.texHeight data) := by
    rw [Ritoddstex.mipSizes]
    simp
  have hklt : k < Ritoddstex.calc_mipmap_count (Ritoddstex.texWidth data)
      (Ritoddstex.texHeight data) := by
    by_contra hge
    push_neg at hge
    have hkeq : k = (Ritoddstex.mipSizes (Ritoddstex.texWidth data)
        (Ritoddstex.texHeight data) (Ritoddstex.byteAt data 9)
        (Ritoddstex.calc_mipmap_count (Ritoddstex.texWidth data)
          (Ritoddstex.texHeight data))).length := by omega
    rw [hkeq, List.take_length] at hksum
    omega
  have hpos : 0 < Ritoddstex.calc_mipmap_count (Ritoddstex.texWidth data)
      (Ritoddstex.texHeight data) := Nat.pos_of_ne_zero hc
  simp only [Ritoddstex.tex_to_dds_bytes, if_neg hcond, hfmt]
  refine ⟨_, k, rfl, hklt, ?_, ?_, ?_⟩
  · simp [hmip, hpos, hklen]
  · simp only [hmip, hpos]
    simp [hmip, hpos, hklen]
    omega
  · simp [hmip, hpos]

/-- Witness for C3: an 8×8 DXT1 container with a 35-byte payload (the
full 4-level chain would need 56 bytes): conversion succeeds, one level
(32 bytes) is written, and the reported size is 128 + 35 = 163, which
counts the whole input payload. -/
theorem C3_defensive_truncation_witness :
    ∃ out k, Ritoddstex.tex_to_dds_bytes
        ([84, 69, 88, 0, 8, 0, 8, 0, 0, 10, 0, 1] ++ List.replicate 35 7) = .ok out ∧
      k < Ritoddstex.calc_mipmap_count
        (Ritoddstex.texWidth ([84, 69, 88, 0, 8, 0, 8, 0, 0, 10, 0, 1] ++ List.replicate 35 7))
        (Ritoddstex.texHeight ([84, 69, 88, 0, 8, 0, 8, 0, 0, 10, 0, 1] ++ List.replicate 35 7)) ∧
      out.payload.length =
        ((Ritoddstex.mipSizes
          (Ritoddstex.texWidth ([84, 69, 88, 0, 8, 0, 8, 0, 0, 10, 0, 1] ++ List.replicate 35 7))
          (Ritoddstex.texHeight ([84, 69, 88, 0, 8, 0, 8, 0, 0, 10, 0, 1] ++ List.replicate 35 7))
          (Ritoddstex.byteAt ([84, 69, 88, 0, 8, 0, 8, 0, 0, 10, 0, 1] ++ List.replicate 35 7) 9)
          (Ritoddstex.calc_mipmap_count
            (Ritoddstex.texWidth ([84, 69, 88, 0, 8, 0, 8, 0, 0, 10, 0, 1] ++ List.replicate 35 7))
            (Ritoddstex.texHeight ([84, 69, 88, 0, 8, 0, 8, 0, 0, 10, 0, 1] ++ List.replicate 35 7)))).take k).sum ∧
      out.payload.length ≤
        ([84, 69, 88, 0, 8, 0, 8, 0, 0, 10, 0, 1] ++ List.replicate 35 7).length - 12 ∧
      out.reportedSize = 128 + (if (⟨⟨32, 0x4, [68, 88, 84, 49], 0, 0, 0, 0, 0⟩, false⟩ :
          Ritoddstex.DDSPixelFormat × Bool).2 then 20 else 0) +
        (([84, 69, 88, 0, 8, 0, 8, 0, 0, 10, 0, 1] ++ List.replicate 35 7).length - 12) :=
  C3_defensive_truncation _ _ (by decide) (by decide) rfl (by decide) (by decide)
    (by decide) (by decide)

/-- Counterexample to C3 as stated: for the same truncated 8×8 DXT1
input the reported length is 163 = headers (128) + full payload (35),
not headers plus the 32 bytes of the single level actually copied. -/
theorem C3_counterexample_reported_size :
    ∃ out, Ritoddstex.tex_to_dds_bytes
        ([84, 69, 88, 0, 8, 0, 8, 0, 0, 10, 0, 1] ++ List.replicate 35 7) = .ok out ∧
      out.payload.length = 32 ∧ out.reportedSize = 163 ∧
      out.reportedSize ≠ 128 + out.payload.length := by
  refine ⟨_, rfl, ?_, ?_, ?_⟩ <;> decide

namespace Bin

/-- The decoded ritobin value tree (`bin_types.hpp`), restricted to the
alternatives the extractors inspect; every other primitive alternative
is collapsed into `prim` (the extractors treat all of them alike: not a
string, not a hash/link, not a container).  `embed`/`pointer` carry the
type hash and the ordered field list; fields are keyed by the 32-bit
FNV hash of the property name (`field.key.hash()`). -/
inductive Value where
  | text : String → Value
  | hash : Nat → Value
  | link : Nat → Value
  | embed : Nat → List (Nat × Value) → Value
  | pointer : Nat → List (Nat × Value) → Value
  | list : List Value → Value
  | list2 : List Value → Value
  | map : List (Value × Value) → Value
  | prim : Value

abbrev Fields := List (Nat × Value)

abbrev Results := List (String × String)

abbrev Idx := List (Nat × Fields)

/-- `bin.sections.find(name)`: first section with the given name. -/
def sectionFind : List (String × Value) → String → Option Value
  | [], _ => none
  | (n, v) :: rest, name => if n = name then some v else sectionFind rest name

/-- `find_field` (identical static helper in both extractor sources):
first field whose key hash matches. -/
def find_field : Fields → Nat → Option (Nat × Value)
  | [], _ => none
  | f :: rest, h => if f.1 = h then some f else find_field rest h

/-- `std::get_if<ritobin::Embed>`: the field list of an `Object`, if the
value is one. -/
def get_embed : Value → Option Fields
  | .embed _ items => some items
  | _ => none

/-- `results[key] = value` on the `std::unordered_map` accumulator:
replace the value under an existing key, else add the binding. -/
def upsert : Results → String → String → Results
  | [], k, v => [(k, v)]
  | (k0, v0) :: rest, k, v =>
    if k0 = k then (k0, v) :: rest else (k0, v0) :: upsert rest k v

/-- `entries_map[hash] = entry` on the `std::unordered_map` index. -/
def idxUpsert : Idx → Nat → Fields → Idx
  | [], h, e => [(h, e)]
  | (h0, e0) :: rest, h, e =>
    if h0 = h then (h0, e) :: rest else (h0, e0) :: idxUpsert rest h e

/-- `entries_map.find(hash)`. -/
def idxFind : Idx → Nat → Option Fields
  | [], _ => none
  | (h0, e0) :: rest, h => if h0 = h then some e0 else idxFind rest h

/-- One pair of the index-building pre-pass: a pair with a `Hash` key
and an `Embed` value is stored under the key's 32-bit hash, anything
else is skipped. -/
def indexStep (idx : Idx) (p : Value × Value) : Idx :=
  match p.1, p.2 with
  | .hash h, .embed _ items => idxUpsert idx h items
  | _, _ => idx

/-- The identical index-building pre-pass of both extractors. -/
def buildEntriesIndex (pairs : List (Value × Value)) : Idx :=
  pairs.foldl indexStep []

/-- Lookup in the result mapping (used to state map-level properties). -/
def resFind : Results → String → Option String
  | [], _ => none
  | (k0, v0) :: rest, k => if k0 = k then some v0 else resFind rest k

end Bin

namespace BinParser

open Bin

abbrev HASH_SKIN_MESH_PROPERTIES : Nat := 0x45ff5904
abbrev HASH_TEXTURE : Nat := 0x3c6468f4
abbrev HASH_MATERIAL_OVERRIDE : Nat := 0x24725910
abbrev HASH_SUBMESH : Nat := 0xaad7612c
abbrev HASH_MATERIAL_LINK : Nat := 0xd2e4d060
abbrev HASH_SAMPLER_VALUES : Nat := 0x0a6f0eb5
abbrev HASH_PROP_NAME : Nat := 0xb311d4ef
abbrev HASH_PROP_VALUE : Nat := 0xf0a363e3

/-- `get_string` of `bin_parser.cpp`: the text of a `String` value, else "". -/
def get_string : Value → String
  | .text s => s
  | _ => ""

/-- `get_link` of `bin_parser.cpp`: the 32-bit id of a `Link` value,
else 0 (note: unlike `ritobin_dll.cpp`, a `Hash` value yields 0). -/
def get_link : Value → Nat
  | .link l => l
  | _ => 0

/-- `if (auto* f = find_field(items, h)) x = get_string(f->value);` with
`x` initialized empty. -/
def fieldString (items : Fields) (h : Nat) : String :=
  match find_field items h with
  | some f => get_string f.2
  | none => ""

/-- The `process_prop` lambda of `bin_parser.cpp`: an element
contributes its `PROP_VALUE` text iff it is an `Object` whose
`PROP_NAME` is literally "Diffuse_Texture" and whose `PROP_VALUE` is
non-empty text. -/
def process_prop (v : Value) : Option String :=
  match get_embed v with
  | none => none
  | some pItems =>
    let p_name := fieldString pItems HASH_PROP_NAME
    let p_val := fieldString pItems HASH_PROP_VALUE
    if p_name = "Diffuse_Texture" ∧ p_val ≠ "" then some p_val else none

/-- The element loop with `break` on the first successful
`process_prop`. -/
def scanProps : List Value → Option String
  | [] => none
  | v :: rest =>
    match process_prop v with
    | some p => some p
    | none => scanProps rest

/-- Link resolution of `bin_parser.cpp` lines 157–194: look the linked
id up in the index, find its `SAMPLER_VALUES` field, and scan a `List`
or `List2` of property objects (there is no branch for a `Map` despite
the comment "Try List, List2, then Map"); yields "" when nothing
matches, which leaves the empty `tex_path` unchanged. -/
def resolveLink (idx : Idx) (linked : Nat) : String :=
  match idxFind idx linked with
  | none => ""
  | some matItems =>
    match find_field matItems HASH_SAMPLER_VALUES with
    | none => ""
    | some pf =>
      match pf.2 with
      | .list items => (scanProps items).getD ""
      | .list2 items => (scanProps items).getD ""
      | _ => ""

/-- `mat_name` of an override: first `SUBMESH_NAME` field's text. -/
def matNameOf (ovItems : Fields) : String := fieldString ovItems HASH_SUBMESH

/-- Direct `tex_path` of an override: first `TEXTURE` field's text. -/
def directTexOf (ovItems : Fields) : String := fieldString ovItems HASH_TEXTURE

/-- `linked_mat_hash` of an override: first `MATERIAL_LINK` field via
`get_link`. -/
def linkedOf (ovItems : Fields) : Nat :=
  match find_field ovItems HASH_MATERIAL_LINK with
  | some f => get_link f.2
  | none => 0

/-- The final `tex_path` of an override: the direct texture, or — only
when it is empty and a non-zero link exists — the link-resolved path. -/
def overridePath (idx : Idx) (ovItems : Fields) : String :=
  if directTexOf ovItems = "" ∧ linkedOf ovItems ≠ 0 then
    resolveLink idx (linkedOf ovItems)
  else directTexOf ovItems

/-- One override element: record `results[name] = path` when both are
non-empty. -/
def processOverride (idx : Idx) (res : Results) (v : Value) : Results :=
  match get_embed v with
  | none => res
  | some ovItems =>
    let mat_name := matNameOf ovItems
    let tex_path := overridePath idx ovItems
    if mat_name ≠ "" ∧ tex_path ≠ "" then upsert res mat_name tex_path else res

/-- The `BASE` texture step: first `TEXTURE` field of
`skinMeshProperties`, recorded when non-empty. -/
def baseStep (res : Results) (smpItems : Fields) : Results :=
  match find_field smpItems HASH_TEXTURE with
  | some f =>
    let tex := get_string f.2
    if tex ≠ "" then upsert res "BASE" tex else res
  | none => res

/-- The override-list step: first `MATERIAL_OVERRIDE` field, which must
hold a `List` (a `List2` or anything else is skipped). -/
def moStep (idx : Idx) (res : Results) (smpItems : Fields) : Results :=
  match find_field smpItems HASH_MATERIAL_OVERRIDE with
  | none => res
  | some mo =>
    match mo.2 with
    | .list items => items.foldl (processOverride idx) res
    | _ => res

/-- `skinMeshProperties` processing: the `BASE` step, then the override
list. -/
def processSmp (idx : Idx) (res : Results) (smpItems : Fields) : Results :=
  moStep idx (baseStep res smpItems) smpItems

/-- One entries pair: value must be an `Object`; its first
`SKIN_MESH_PROPERTIES` field must hold an `Object`. -/
def processEntry (idx : Idx) (res : Results) (v : Value) : Results :=
  match get_embed v with
  | none => res
  | some items =>
    match find_field items HASH_SKIN_MESH_PROPERTIES with
    | none => res
    | some smp =>
      match get_embed smp.2 with
      | none => res
      | some smpItems => processSmp idx res smpItems

/-- `extract_textures` of `bin_parser.cpp` (the result is modelled as
the accumulated key→value mapping; the source serializes it to
`key=value` lines in unspecified order). -/
def extract_textures (bin : List (String × Value)) : Results :=
  match sectionFind bin "entries" with
  | none => []
  | some v =>
    match v with
    | .map pairs =>
      let idx := buildEntriesIndex pairs
      pairs.foldl (fun res p => processEntry idx res p.2) []
    | _ => []

end BinParser

namespace RitobinDll

open Bin

abbrev HASH_SKIN_MESH_PROPERTIES : Nat := 0x45ff5904
abbrev HASH_TEXTURE : Nat := 0x3c6468f4
abbrev HASH_MATERIAL_OVERRIDE : Nat := 0x24725910
abbrev HASH_NAME : Nat := 0xaad7612c
abbrev HASH_MATERIAL_LINK : Nat := 0xd2e4d060
abbrev HASH_PROPERTIES_LIST : Nat := 0x0a6f0eb5
abbrev HASH_PROP_NAME : Nat := 0xb311d4ef
abbrev HASH_PROP_VALUE : Nat := 0xf0a363e3

/-- `get_string_value` of `ritobin_dll.cpp`. -/
def get_string_value : Value → String
  | .text s => s
  | _ => ""

/-- `get_hash_value` of `ritobin_dll.cpp`: accepts a `Hash` *or* a
`Link` (unlike `bin_parser.cpp`'s `get_link`). -/
def get_hash_value : Value → Nat
  | .hash h => h
  | .link l => l
  | _ => 0

/-- The three loop-local variables of the override property loop. -/
structure OvState where
  mat_name : String
  tex_path : String
  linked_mat_hash : Nat

/-- One iteration of `for (const auto& prop : override_embed->items)`:
each matching key overwrites the corresponding local (last match wins). -/
def ovStep (st : OvState) (f : Nat × Value) : OvState :=
  let st := if f.1 = HASH_NAME then { st with mat_name := get_string_value f.2 } else st
  let st := if f.1 = HASH_TEXTURE then { st with tex_path := get_string_value f.2 } else st
  if f.1 = HASH_MATERIAL_LINK then { st with linked_mat_hash := get_hash_value f.2 } else st

/-- The whole override property loop. -/
def ovScan (ovItems : Fields) : OvState :=
  ovItems.foldl ovStep ⟨"", "", 0⟩

/-- One iteration of `for (const auto& pf : prop_embed->items)`:
`p_name`/`p_val` assignments, last match wins. -/
def propStep (st : String × String) (f : Nat × Value) : String × String :=
  let st := if f.1 = HASH_PROP_NAME then (get_string_value f.2, st.2) else st
  if f.1 = HASH_PROP_VALUE then (st.1, get_string_value f.2) else st

/-- The `p_name`/`p_val` loop over one property object. -/
def propScan (pItems : Fields) : String × String :=
  pItems.foldl propStep ("", "")

/-- One property element of the `Properties` list (inline in
`ritobin_dll.cpp` lines 168–184). -/
def process_prop (v : Value) : Option String :=
  match get_embed v with
  | none => none
  | some pItems =>
    let st := propScan pItems
    if st.1 = "Diffuse_Texture" ∧ st.2 ≠ "" then some st.2 else none

/-- The element loop with `break` on the first match. -/
def scanProps : List Value → Option String
  | [] => none
  | v :: rest =>
    match process_prop v with
    | some p => some p
    | none => scanProps rest

/-- Link resolution of `ritobin_dll.cpp` lines 157–189: only a `List`
value of the `Properties` field is scanned (no `List2`, no `Map`). -/
def resolveLink (idx : Idx) (linked : Nat) : String :=
  match idxFind idx linked with
  | none => ""
  | some matItems =>
    match find_field matItems HASH_PROPERTIES_LIST with
    | none => ""
    | some pf =>
      match pf.2 with
      | .list items => (scanProps items).getD ""
      | _ => ""

/-- The final `tex_path` of an override. -/
def overridePath (idx : Idx) (st : OvState) : String :=
  if st.tex_path = "" ∧ st.linked_mat_hash ≠ 0 then
    resolveLink idx st.linked_mat_hash
  else st.tex_path

/-- One override element. -/
def processOverride (idx : Idx) (res : Results) (v : Value) : Results :=
  match get_embed v with
  | none => res
  | some ovItems =>
    let st := ovScan ovItems
    let tex_path := overridePath idx st
    if st.mat_name ≠ "" ∧ tex_path ≠ "" then upsert res st.mat_name tex_path else res

/-- One field of `skinMeshProperties` (the two sequential `if`s of the
`for (const auto& sub_field : skin_mesh->items)` loop: the `BASE`
texture, then the override list, which must hold a `List`). -/
def smpField (idx : Idx) (res : Results) (f : Nat × Value) : Results :=
  let res :=
    if f.1 = HASH_TEXTURE then
      let tex := get_string_value f.2
      if tex ≠ "" then upsert res "BASE" tex else res
    else res
  if f.1 = HASH_MATERIAL_OVERRIDE then
    match f.2 with
    | .list items => items.foldl (processOverride idx) res
    | _ => res
  else res

/-- The `skinMeshProperties` field loop. -/
def processSmp (idx : Idx) (res : Results) (smpItems : Fields) : Results :=
  smpItems.foldl (smpField idx) res

/-- One field of an entry: every `SKIN_MESH_PROPERTIES` field whose
value is an `Object` is processed (not just the first). -/
def entryField (idx : Idx) (res : Results) (f : Nat × Value) : Results :=
  if f.1 = HASH_SKIN_MESH_PROPERTIES then
    match get_embed f.2 with
    | some smpItems => processSmp idx res smpItems
    | none => res
  else res

/-- One entries pair. -/
def processEntry (idx : Idx) (res : Results) (v : Value) : Results :=
  match get_embed v with
  | none => res
  | some items => items.foldl (entryField idx) res

/-- `extract_textures` of `ritobin_dll.cpp` (textually identical to the
copy in `lol_native.cpp`), modelled as the accumulated mapping. -/
def extract_textures (bin : List (String × Value)) : Results :=
  match sectionFind bin "entries" with
  | none => []
  | some v =>
    match v with
    | .map pairs =>
      let idx := buildEntriesIndex pairs
      pairs.foldl (fun res p => processEntry idx res p.2) []
    | _ => []

end RitobinDll

namespace Bin

/-- Is the value a `List2` (ritobin's alternate list encoding)? -/
def isList2Value : Value → Bool
  | .list2 _ => true
  | _ => false

/-- Is the value a `Hash`? -/
def isHashValue : Value → Bool
  | .hash _ => true
  | _ => false

end Bin

/-- C9: a document without an "entries" section, or whose "entries"
section is not a `Mapping`, extracts to the empty mapping (and the
extractors have no failure channel at all: they are total functions). -/
theorem C9_missing_entries (bin : List (String × Bin.Value))
    (h : ∀ pairs, Bin.sectionFind bin "entries" ≠ some (.map pairs)) :
    BinParser.extract_textures bin = [] ∧ RitobinDll.extract_textures bin = [] := by
  rcases hs : Bin.sectionFind bin "entries" with _ | v
  · constructor <;>
      simp [BinParser.extract_textures, RitobinDll.extract_textures, hs]
  · cases v
    case map pairs => exact absurd hs (h pairs)
    all_goals constructor <;>
      simp [BinParser.extract_textures, RitobinDll.extract_textures, hs]

/-- Witness for C9: a document whose "entries" section holds text. -/
theorem C9_missing_entries_witness :
    BinParser.extract_textures [("entries", Bin.Value.text "x")] = [] ∧
    RitobinDll.extract_textures [("entries", Bin.Value.text "x")] = [] :=
  C9_missing_entries _ (by intro pairs hp; simp [Bin.sectionFind] at hp)

/-- C7: an override with a non-empty direct `TEXTURE` and a
`MATERIAL_LINK` field records the direct texture and never follows the
link: in both implementations the result is independent of the entries
index (the right-hand side does not mention `idx`), and the recorded
path is the direct texture. -/
theorem C7_direct_texture_wins :
    (∀ (idx : Bin.Idx) (res : Bin.Results) (t : Nat) (ovItems : Bin.Fields),
      BinParser.directTexOf ovItems ≠ "" →
      (∃ f, Bin.find_field ovItems BinParser.HASH_MATERIAL_LINK = some f) →
      BinParser.processOverride idx res (.embed t ovItems) =
        (if BinParser.matNameOf ovItems ≠ "" then
          Bin.upsert res (BinParser.matNameOf ovItems) (BinParser.directTexOf ovItems)
        else res)) ∧
    (∀ (idx : Bin.Idx) (res : Bin.Results) (t : Nat) (ovItems : Bin.Fields),
      (RitobinDll.ovScan ovItems).tex_path ≠ "" →
      (∃ f, Bin.find_field ovItems RitobinDll.HASH_MATERIAL_LINK = some f) →
      RitobinDll.processOverride idx res (.embed t ovItems) =
        (if (RitobinDll.ovScan ovItems).mat_name ≠ "" then
          Bin.upsert res (RitobinDll.ovScan ovItems).mat_name
            (RitobinDll.ovScan ovItems).tex_path
        else res)) := by
  constructor
  · intro idx res t ovItems h _
    simp only [BinParser.processOverride, Bin.get_embed, BinParser.overridePath, h,
      false_and, if_false, ne_eq, not_false_iff, and_true]
  · intro idx res t ovItems h _
    simp only [RitobinDll.processOverride, Bin.get_embed, RitobinDll.overridePath, h,
      false_and, if_false, ne_eq, not_false_iff, and_true]

/-- Witness for C7: an override carrying both a direct texture and a
link, processed against a non-empty index that could resolve the link. -/
theorem C7_direct_texture_wins_witness :
    BinParser.processOverride
        [(2, [(0x0a6f0eb5, Bin.Value.list [Bin.Value.embed 11
          [(0xb311d4ef, Bin.Value.text "Diffuse_Texture"),
           (0xf0a363e3, Bin.Value.text "linked.dds")]])])]
        []
        (.embed 9 [(0xaad7612c, Bin.Value.text "m"),
          (0x3c6468f4, Bin.Value.text "direct.dds"),
          (0xd2e4d060, Bin.Value.link 2)]) =
      (if BinParser.matNameOf [(0xaad7612c, Bin.Value.text "m"),
          (0x3c6468f4, Bin.Value.text "direct.dds"),
          (0xd2e4d060, Bin.Value.link 2)] ≠ "" then
        Bin.upsert [] (BinParser.matNameOf [(0xaad7612c, Bin.Value.text "m"),
          (0x3c6468f4, Bin.Value.text "direct.dds"),
          (0xd2e4d060, Bin.Value.link 2)])
          (BinParser.directTexOf [(0xaad7612c, Bin.Value.text "m"),
            (0x3c6468f4, Bin.Value.text "direct.dds"),
            (0xd2e4d060, Bin.Value.link 2)])
      else []) :=
  C7_direct_texture_wins.1 _ [] 9 _ (by decide) ⟨_, rfl⟩

/-- C2 (code evaluation at the failing input): `bin_parser.cpp` scans a
`SAMPLER_VALUES` list in stored order with first match winning, and
accepts the `ListA` and `ListB` encodings — but, contrary to the claim
(and to the source's own comment "Try List, List2, then Map"), a
`Mapping`-encoded `SAMPLER_VALUES` is ignored and resolves nothing.
The three documents below are identical except for the encoding of the
linked object's `SAMPLER_VALUES` field (a two-element list whose first
match must win, the same list `ListB`-encoded, and a `Mapping`). -/
theorem C2_sampler_mapping_ignored :
    BinParser.extract_textures
      [("entries", Bin.Value.map
        [(.hash 1, .embed 7 [(0x45ff5904, .embed 8 [(0x24725910, .list
            [.embed 9 [(0xaad7612c, .text "m"), (0xd2e4d060, .link 2)]])])]),
         (.hash 2, .embed 10 [(0x0a6f0eb5, .list
            [.embed 11 [(0xb311d4ef, .text "Diffuse_Texture"),
                        (0xf0a363e3, .text "first.dds")],
             .embed 12 [(0xb311d4ef, .text "Diffuse_Texture"),
                        (0xf0a363e3, .text "second.dds")]])])])] =
      [("m", "first.dds")] ∧
    BinParser.extract_textures
      [("entries", Bin.Value.map
        [(.hash 1, .embed 7 [(0x45ff5904, .embed 8 [(0x24725910, .list
            [.embed 9 [(0xaad7612c, .text "m"), (0xd2e4d060, .link 2)]])])]),
         (.hash 2, .embed 10 [(0x0a6f0eb5, .list2
            [.embed 11 [(0xb311d4ef, .text "Diffuse_Texture"),
                        (0xf0a363e3, .text "first.dds")],
             .embed 12 [(0xb311d4ef, .text "Diffuse_Texture"),
                        (0xf0a363e3, .text "second.dds")]])])])] =
      [("m", "first.dds")] ∧
    BinParser.extract_textures
      [("entries", Bin.Value.map
        [(.hash 1, .embed 7 [(0x45ff5904, .embed 8 [(0x24725910, .list
            [.embed 9 [(0xaad7612c, .text "m"), (0xd2e4d060, .link 2)]])])]),
         (.hash 2, .embed 10 [(0x0a6f0eb5, .map
            [(.prim, .embed 11 [(0xb311d4ef, .text "Diffuse_Texture"),
                                (0xf0a363e3, .text "first.dds")])])])])] =
      [] := by
  refine ⟨?_, ?_, ?_⟩ <;> decide

/-- C4 (amended: a `ListB`-encoded `MATERIAL_OVERRIDE` is *not*
accepted — both extractors require `ListA` and otherwise skip the
override list entirely, contributing nothing): in `bin_parser.cpp`, if
the first `MATERIAL_OVERRIDE` field of `skinMeshProperties` holds a
`ListB`, processing collapses to the `BASE`-texture step alone; in
`ritobin_dll.cpp`, if every `MATERIAL_OVERRIDE` field holds a `ListB`,
processing equals processing with those fields removed. -/
theorem C4_listB_overrides_skipped :
    (∀ (idx : Bin.Idx) (res : Bin.Results) (smpItems : Bin.Fields)
        (k : Nat) (l : List Bin.Value),
      Bin.find_field smpItems BinParser.HASH_MATERIAL_OVERRIDE = some (k, .list2 l) →
      BinParser.processSmp idx res smpItems = BinParser.baseStep res smpItems) ∧
    (∀ (idx : Bin.Idx) (res : Bin.Results) (smpItems : Bin.Fields),
      (∀ f ∈ smpItems, f.1 = RitobinDll.HASH_MATERIAL_OVERRIDE →
        Bin.isList2Value f.2 = true) →
      RitobinDll.processSmp idx res smpItems =
        RitobinDll.processSmp idx res
          (smpItems.filter (fun f => f.1 != RitobinDll.HASH_MATERIAL_OVERRIDE))) := by
  constructor
  · intro idx res smpItems k l hmo
    simp [BinParser.processSmp, BinParser.moStep, hmo]
  · intro idx res smpItems hall
    induction smpItems generalizing res with
    | nil => rfl
    | cons f fs ih =>
      by_cases hk : f.1 = RitobinDll.HASH_MATERIAL_OVERRIDE
      · have hl2 : Bin.isList2Value f.2 = true := hall f (by simp) hk
        have hstep : RitobinDll.smpField idx res f = res := by
          rcases f with ⟨fk, fv⟩
          cases fv <;> simp_all [RitobinDll.smpField, Bin.isList2Value,
            RitobinDll.HASH_TEXTURE, RitobinDll.HASH_MATERIAL_OVERRIDE]
        have hfilter : (f :: fs).filter
            (fun f => f.1 != RitobinDll.HASH_MATERIAL_OVERRIDE) =
            fs.filter (fun f => f.1 != RitobinDll.HASH_MATERIAL_OVERRIDE) := by
          simp [List.filter, hk]
        rw [hfilter]
        show RitobinDll.processSmp idx (RitobinDll.smpField idx res f) fs = _
        rw [hstep]
        exact ih res (fun g hg => hall g (by simp [hg]))
      · have hb : (f.1 != RitobinDll.HASH_MATERIAL_OVERRIDE) = true :=
          bne_iff_ne.mpr hk
        have hfilter : (f :: fs).filter
            (fun f => f.1 != RitobinDll.HASH_MATERIAL_OVERRIDE) =
            f :: fs.filter (fun f => f.1 != RitobinDll.HASH_MATERIAL_OVERRIDE) := by
          simp [List.filter, hb]
        rw [hfilter]
        show RitobinDll.processSmp idx (RitobinDll.smpField idx res f) fs =
          RitobinDll.processSmp idx (RitobinDll.smpField idx res f) _
        exact ih _ (fun g hg => hall g (by simp [hg]))

/-- Witness for C4: a `skinMeshProperties` with a `BASE` texture and a
`ListB` override list: `bin_parser.cpp` keeps only the `BASE` step, and
`ritobin_dll.cpp` behaves as if the override field were absent. -/
theorem C4_listB_overrides_skipped_witness :
    BinParser.processSmp [] []
        [(0x3c6468f4, Bin.Value.text "base.dds"),
         (0x24725910, Bin.Value.list2 [Bin.Value.embed 9
           [(0xaad7612c, Bin.Value.text "m"), (0x3c6468f4, Bin.Value.text "p.dds")]])] =
      BinParser.baseStep []
        [(0x3c6468f4, Bin.Value.text "base.dds"),
         (0x24725910, Bin.Value.list2 [Bin.Value.embed 9
           [(0xaad7612c, Bin.Value.text "m"), (0x3c6468f4, Bin.Value.text "p.dds")]])] ∧
    RitobinDll.processSmp [] []
        [(0x3c6468f4, Bin.Value.text "base.dds"),
         (0x24725910, Bin.Value.list2 [Bin.Value.embed 9
           [(0xaad7612c, Bin.Value.text "m"), (0x3c6468f4, Bin.Value.text "p.dds")]])] =
      RitobinDll.processSmp [] []
        (([(0x3c6468f4, Bin.Value.text "base.dds"),
           (0x24725910, Bin.Value.list2 [Bin.Value.embed 9
             [(0xaad7612c, Bin.Value.text "m"),
              (0x3c6468f4, Bin.Value.text "p.dds")]])] : Bin.Fields).filter
          (fun f => f.1 != RitobinDll.HASH_MATERIAL_OVERRIDE)) :=
  ⟨C4_listB_overrides_skipped.1 [] [] _ 0x24725910 _ rfl,
   C4_listB_overrides_skipped.2 [] [] _ (by decide)⟩

/-- Counterexample to C4 as stated: the same override list encoded as
`ListA` yields a mapping, encoded as `ListB` yields the empty mapping —
the two encodings are *not* processed alike. -/
theorem C4_counterexample_listB :
    BinParser.extract_textures
      [("entries", Bin.Value.map
        [(.hash 1, .embed 7 [(0x45ff5904, .embed 8 [(0x24725910, .list
            [.embed 9 [(0xaad7612c, .text "m"), (0x3c6468f4, .text "p.dds")]])])])])] =
      [("m", "p.dds")] ∧
    BinParser.extract_textures
      [("entries", Bin.Value.map
        [(.hash 1, .embed 7 [(0x45ff5904, .embed 8 [(0x24725910, .list2
            [.embed 9 [(0xaad7612c, .text "m"), (0x3c6468f4, .text "p.dds")]])])])])] =
      [] ∧
    RitobinDll.extract_textures
      [("entries", Bin.Value.map
        [(.hash 1, .embed 7 [(0x45ff5904, .embed 8 [(0x24725910, .list2
            [.embed 9 [(0xaad7612c, .text "m"), (0x3c6468f4, .text "p.dds")]])])])])] =
      [] ∧
    ([("m", "p.dds")] : Bin.Results) ≠ [] := by
  refine ⟨?_, ?_, ?_, ?_⟩ <;> decide

namespace BinEquiv

open Bin

/-- No field of the list carries key `k`. -/
def keyNotIn (k : Nat) : Fields → Bool
  | [] => true
  | f :: fs => (f.1 != k) && keyNotIn k fs

/-- All field keys of the object are pairwise distinct. -/
def keysNodup : Fields → Bool
  | [] => true
  | f :: fs => keyNotIn f.1 fs && keysNodup fs

/-- No field keyed `TEXTURE`. -/
def noTexKey (fs : Fields) : Bool :=
  keyNotIn BinParser.HASH_TEXTURE fs

/-- No `TEXTURE`-keyed field appears after a `MATERIAL_OVERRIDE`-keyed
one (`bin_parser.cpp` always records `BASE` before the overrides, while
`ritobin_dll.cpp` processes the fields in stored order). -/
def texBeforeOverride : Fields → Bool
  | [] => true
  | f :: fs =>
    (if f.1 = BinParser.HASH_MATERIAL_OVERRIDE then noTexKey fs else true) &&
      texBeforeOverride fs

/-- No `MATERIAL_LINK`-keyed field holds a `Hash` value (the point on
which `get_link` and `get_hash_value` differ). -/
def linkNotHash : Fields → Bool
  | [] => true
  | f :: fs =>
    (if f.1 = BinParser.HASH_MATERIAL_LINK then !(Bin.isHashValue f.2) else true) &&
      linkNotHash fs

/-- No `SAMPLER_VALUES`-keyed field holds a `List2` value (scanned by
`bin_parser.cpp` but not by `ritobin_dll.cpp`). -/
def samplerNotList2 : Fields → Bool
  | [] => true
  | f :: fs =>
    (if f.1 = BinParser.HASH_SAMPLER_VALUES then !(Bin.isList2Value f.2) else true) &&
      samplerNotList2 fs

/-- A sampler property element is agreeable when, if it is an `Object`,
its keys are distinct. -/
def wfPropElem (v : Value) : Bool :=
  match get_embed v with
  | some p => keysNodup p
  | none => true

/-- An override element is agreeable when, if it is an `Object`, its
keys are distinct and its `MATERIAL_LINK` is not a `Hash`. -/
def wfOvElem (v : Value) : Bool :=
  match get_embed v with
  | some ov => keysNodup ov && linkNotHash ov
  | none => true

/-- The override list (when present and `ListA`) has agreeable elements. -/
def overridesOK (items : Fields) : Bool :=
  match find_field items BinParser.HASH_MATERIAL_OVERRIDE with
  | some mo =>
    match mo.2 with
    | .list ovs => ovs.all wfOvElem
    | _ => true
  | none => true

/-- Agreeable `skinMeshProperties` object. -/
def wfSmpItems (s : Fields) : Bool :=
  keysNodup s && texBeforeOverride s && overridesOK s

/-- Agreeable entry object (the `skinMeshProperties` path). -/
def wfEntryItems (items : Fields) : Bool :=
  keysNodup items &&
  (match find_field items BinParser.HASH_SKIN_MESH_PROPERTIES with
   | some smp =>
     match get_embed smp.2 with
     | some s => wfSmpItems s
     | none => true
   | none => true)

/-- Agreeable entry object from the link-target side: its
`SAMPLER_VALUES` is not a `List2` and its elements are agreeable. -/
def samplerOK (items : Fields) : Bool :=
  samplerNotList2 items &&
  (match find_field items BinParser.HASH_SAMPLER_VALUES with
   | some pf =>
     match pf.2 with
     | .list vs => vs.all wfPropElem
     | .list2 vs => vs.all wfPropElem
     | _ => true
   | none => true)

/-- One entries pair is agreeable. -/
def wfPair (p : Value × Value) : Bool :=
  match get_embed p.2 with
  | some items => wfEntryItems items && samplerOK items
  | none => true

/-- A document on which the two extractors cannot be told apart: every
entry avoids the three divergence triggers (duplicate field hashes,
`Hash`-valued `MATERIAL_LINK`, `List2`-encoded `SAMPLER_VALUES`) and
keeps the `TEXTURE` field ahead of `MATERIAL_OVERRIDE`. -/
def wfDoc (bin : List (String × Value)) : Bool :=
  match sectionFind bin "entries" with
  | some (.map pairs) => pairs.all wfPair
  | _ => true

theorem get_string_eq (v : Value) :
    BinParser.get_string v = RitobinDll.get_string_value v := by
  cases v <;> rfl

theorem get_link_eq (v : Value) (h : Bin.isHashValue v = false) :
    BinParser.get_link v = RitobinDll.get_hash_value v := by
  cases v <;> simp_all [Bin.isHashValue, BinParser.get_link, RitobinDll.get_hash_value]

theorem find_none_of_keyNotIn (k : Nat) (fs : Fields)
    (h : keyNotIn k fs = true) : find_field fs k = none := by
  induction fs with
  | nil => rfl
  | cons f fs ih =>
    simp only [keyNotIn, Bool.and_eq_true, bne_iff_ne, ne_eq] at h
    simp only [find_field, if_neg h.1]
    exact ih h.2

theorem find_mem {fs : Fields} {k : Nat} {f : Nat × Value}
    (h : find_field fs k = some f) : f ∈ fs ∧ f.1 = k := by
  induction fs with
  | nil => simp [find_field] at h
  | cons g gs ih =>
    simp only [find_field] at h
    split at h
    · cases h
      exact ⟨by simp, by assumption⟩
    · obtain ⟨hmem, hk⟩ := ih h
      exact ⟨by simp [hmem], hk⟩

theorem linkNotHash_mem {fs : Fields} {f : Nat × Value}
    (h : linkNotHash fs = true) (hmem : f ∈ fs)
    (hk : f.1 = BinParser.HASH_MATERIAL_LINK) : Bin.isHashValue f.2 = false := by
  induction fs with
  | nil => simp at hmem
  | cons g gs ih =>
    simp only [linkNotHash, Bool.and_eq_true] at h
    rcases List.mem_cons.mp hmem with hg | hg
    · subst hg
      have := h.1
      rw [if_pos hk] at this
      simpa using this
    · exact ih h.2 hg

theorem samplerNotList2_mem {fs : Fields} {f : Nat × Value}
    (h : samplerNotList2 fs = true) (hmem : f ∈ fs)
    (hk : f.1 = BinParser.HASH_SAMPLER_VALUES) : Bin.isList2Value f.2 = false := by
  induction fs with
  | nil => simp at hmem
  | cons g gs ih =>
    simp only [samplerNotList2, Bool.and_eq_true] at h
    rcases List.mem_cons.mp hmem with hg | hg
    · subst hg
      have := h.1
      rw [if_pos hk] at this
      simpa using this
    · exact ih h.2 hg

end BinEquiv

namespace BinEquiv

open Bin

/-- With distinct keys, the last-match-wins `p_name`/`p_val` loop of
`ritobin_dll.cpp` computes exactly the first-match lookups of
`bin_parser.cpp`. -/
theorem propFold_eq (fs : Fields) :
    ∀ st : String × String, keysNodup fs = true →
    List.foldl RitobinDll.propStep st fs =
      ((match find_field fs BinParser.HASH_PROP_NAME with
        | some f => BinParser.get_string f.2
        | none => st.1),
       (match find_field fs BinParser.HASH_PROP_VALUE with
        | some f => BinParser.get_string f.2
        | none => st.2)) := by
  induction fs with
  | nil => intro st h; simp [find_field]
  | cons f fs ih =>
    intro st h
    simp only [keysNodup, Bool.and_eq_true] at h
    obtain ⟨hni, hnd⟩ := h
    rw [List.foldl_cons, ih _ hnd]
    by_cases hPN : f.1 = BinParser.HASH_PROP_NAME
    · have hnone : find_field fs BinParser.HASH_PROP_NAME = none :=
        find_none_of_keyNotIn _ _ (hPN ▸ hni)
      have hPV : ¬(f.1 = BinParser.HASH_PROP_VALUE) := by rw [hPN]; decide
      simp [find_field, hPN, hPV, hnone, RitobinDll.propStep, get_string_eq]
    · by_cases hPV : f.1 = BinParser.HASH_PROP_VALUE
      · have hnone : find_field fs BinParser.HASH_PROP_VALUE = none :=
          find_none_of_keyNotIn _ _ (hPV ▸ hni)
        simp [find_field, hPN, hPV, hnone, RitobinDll.propStep, get_string_eq]
      · simp [find_field, hPN, hPV, RitobinDll.propStep]

/-- With distinct keys and no `Hash`-valued link, the override property
loop of `ritobin_dll.cpp` computes exactly `bin_parser.cpp`'s
first-match name / direct texture / link triple. -/
theorem ovFold_eq (fs : Fields) :
    ∀ st : RitobinDll.OvState, keysNodup fs = true → linkNotHash fs = true →
    List.foldl RitobinDll.ovStep st fs =
      ⟨(match find_field fs BinParser.HASH_SUBMESH with
        | some f => BinParser.get_string f.2
        | none => st.mat_name),
       (match find_field fs BinParser.HASH_TEXTURE with
        | some f => BinParser.get_string f.2
        | none => st.tex_path),
       (match find_field fs BinParser.HASH_MATERIAL_LINK with
        | some f => BinParser.get_link f.2
        | none => st.linked_mat_hash)⟩ := by
  induction fs with
  | nil => intro st h hl; simp [find_field]
  | cons f fs ih =>
    intro st h hl
    simp only [keysNodup, Bool.and_eq_true] at h
    obtain ⟨hni, hnd⟩ := h
    simp only [linkNotHash, Bool.and_eq_true] at hl
    obtain ⟨hlf, hls⟩ := hl
    rw [List.foldl_cons, ih _ hnd hls]
    by_cases hN : f.1 = BinParser.HASH_SUBMESH
    · have hnone : find_field fs BinParser.HASH_SUBMESH = none :=
        find_none_of_keyNotIn _ _ (hN ▸ hni)
      have hT : ¬(f.1 = BinParser.HASH_TEXTURE) := by rw [hN]; decide
      have hL : ¬(f.1 = BinParser.HASH_MATERIAL_LINK) := by rw [hN]; decide
      simp [find_field, hN, hT, hL, hnone, RitobinDll.ovStep, get_string_eq]
    · by_cases hT : f.1 = BinParser.HASH_TEXTURE
      · have hnone : find_field fs BinParser.HASH_TEXTURE = none :=
          find_none_of_keyNotIn _ _ (hT ▸ hni)
        have hL : ¬(f.1 = BinParser.HASH_MATERIAL_LINK) := by rw [hT]; decide
        simp [find_field, hN, hT, hL, hnone, RitobinDll.ovStep, get_string_eq]
      · by_cases hL : f.1 = BinParser.HASH_MATERIAL_LINK
        · have hnone : find_field fs BinParser.HASH_MATERIAL_LINK = none :=
            find_none_of_keyNotIn _ _ (hL ▸ hni)
          have hhash : Bin.isHashValue f.2 = false := by
            have := hlf
            rw [if_pos hL] at this
            simpa using this
          simp [find_field, hN, hT, hL, hnone, RitobinDll.ovStep,
            get_link_eq f.2 hhash]
        · simp [find_field, hN, hT, hL, RitobinDll.ovStep]

/-- The whole override loop against the empty initial state. -/
theorem ovScan_eq (fs : Fields) (h : keysNodup fs = true)
    (hl : linkNotHash fs = true) :
    RitobinDll.ovScan fs =
      ⟨BinParser.matNameOf fs, BinParser.directTexOf fs, BinParser.linkedOf fs⟩ := by
  rw [RitobinDll.ovScan, ovFold_eq fs _ h hl]
  rfl

/-- Agreeable property elements are classified identically. -/
theorem process_prop_eq (v : Value) (h : wfPropElem v = true) :
    BinParser.process_prop v = RitobinDll.process_prop v := by
  rw [wfPropElem] at h
  rcases hv : get_embed v with _ | pItems
  · rw [BinParser.process_prop, RitobinDll.process_prop, hv]
  · rw [hv] at h
    rw [BinParser.process_prop, RitobinDll.process_prop, hv]
    simp only [RitobinDll.propScan, propFold_eq pItems _ h]
    rfl

/-- Agreeable property lists are scanned identically (first match
wins in both). -/
theorem scanProps_eq (vs : List Value) (h : vs.all wfPropElem = true) :
    BinParser.scanProps vs = RitobinDll.scanProps vs := by
  induction vs with
  | nil => rfl
  | cons v vs ih =>
    simp only [List.all_cons, Bool.and_eq_true] at h
    rw [BinParser.scanProps, RitobinDll.scanProps, process_prop_eq v h.1, ih h.2]

/-- When every index entry has an agreeable (non-`List2`) sampler
field, link resolution agrees between the two implementations
(`HASH_SAMPLER_VALUES` and `HASH_PROPERTIES_LIST` are the same 32-bit
constant). -/
theorem resolveLink_eq (idx : Idx)
    (hidx : ∀ h items, idxFind idx h = some items → samplerOK items = true)
    (linked : Nat) :
    BinParser.resolveLink idx linked = RitobinDll.resolveLink idx linked := by
  rw [BinParser.resolveLink, RitobinDll.resolveLink]
  simp only
    [show RitobinDll.HASH_PROPERTIES_LIST = BinParser.HASH_SAMPLER_VALUES from rfl]
  rcases hfind : idxFind idx linked with _ | matItems
  · rfl
  · dsimp only
    have hs := hidx _ _ hfind
    rw [samplerOK, Bool.and_eq_true] at hs
    obtain ⟨hnl2, hscan⟩ := hs
    rcases hpf : find_field matItems BinParser.HASH_SAMPLER_VALUES with _ | pf
    · rfl
    · have hmem := find_mem hpf
      have hnotl2 : Bin.isList2Value pf.2 = false :=
        samplerNotList2_mem hnl2 hmem.1 hmem.2
      rw [hpf] at hscan
      rcases pf with ⟨pk, pv⟩
      cases pv with
      | list vs =>
        dsimp only at hscan ⊢
        rw [scanProps_eq vs hscan]
      | list2 vs => simp [Bin.isList2Value] at hnotl2
      | _ => rfl

end BinEquiv

namespace BinEquiv

open Bin

/-- Agreeable override elements are processed identically. -/
theorem processOverride_eq (idx : Idx)
    (hidx : ∀ h items, idxFind idx h = some items → samplerOK items = true)
    (res : Results) (v : Value) (h : wfOvElem v = true) :
    BinParser.processOverride idx res v = RitobinDll.processOverride idx res v := by
  rw [wfOvElem] at h
  rcases hv : get_embed v with _ | ovItems
  · rw [BinParser.processOverride, RitobinDll.processOverride, hv]
  · rw [hv] at h
    rw [Bool.and_eq_true] at h
    rw [BinParser.processOverride, RitobinDll.processOverride, hv]
    dsimp only
    rw [ovScan_eq ovItems h.1 h.2, RitobinDll.overridePath, BinParser.overridePath]
    dsimp only
    rw [resolveLink_eq idx hidx]

/-- Override lists with agreeable elements fold identically. -/
theorem overrideFold_eq (idx : Idx)
    (hidx : ∀ h items, idxFind idx h = some items → samplerOK items = true)
    (ovs : List Value) (h : ovs.all wfOvElem = true) :
    ∀ res, ovs.foldl (BinParser.processOverride idx) res =
      ovs.foldl (RitobinDll.processOverride idx) res := by
  induction ovs with
  | nil => intro res; rfl
  | cons v vs ih =>
    intro res
    simp only [List.all_cons, Bool.and_eq_true] at h
    rw [List.foldl_cons, List.foldl_cons, processOverride_eq idx hidx res v h.1]
    exact ih h.2 _

/-- Fields keyed neither `TEXTURE` nor `MATERIAL_OVERRIDE` are inert in
the `skinMeshProperties` loop of `ritobin_dll.cpp`. -/
theorem smpFold_noop (idx : Idx) (fs : Fields) :
    ∀ res, noTexKey fs = true →
      keyNotIn BinParser.HASH_MATERIAL_OVERRIDE fs = true →
    fs.foldl (RitobinDll.smpField idx) res = res := by
  induction fs with
  | nil => intro res _ _; rfl
  | cons f fs ih =>
    intro res hT hM
    rw [noTexKey, keyNotIn, Bool.and_eq_true, bne_iff_ne] at hT
    rw [keyNotIn, Bool.and_eq_true, bne_iff_ne] at hM
    have hstep : RitobinDll.smpField idx res f = res := by
      simp [RitobinDll.smpField, hT.1, hM.1]
    rw [List.foldl_cons, hstep]
    exact ih res hT.2 hM.2

/-- With distinct keys and no `TEXTURE` field, the remainder of the
`skinMeshProperties` loop of `ritobin_dll.cpp` is exactly the
override-list step of `bin_parser.cpp`. -/
theorem moFold_eq (idx : Idx)
    (hidx : ∀ h items, idxFind idx h = some items → samplerOK items = true)
    (fs : Fields) :
    ∀ res, keysNodup fs = true → noTexKey fs = true → overridesOK fs = true →
    fs.foldl (RitobinDll.smpField idx) res = BinParser.moStep idx res fs := by
  induction fs with
  | nil => intro res _ _ _; rfl
  | cons f fs ih =>
    intro res hnd hT hov
    rw [keysNodup, Bool.and_eq_true] at hnd
    obtain ⟨hni, hnds⟩ := hnd
    rw [noTexKey, keyNotIn, Bool.and_eq_true, bne_iff_ne] at hT
    obtain ⟨hfT, hTs⟩ := hT
    by_cases hfM : f.1 = BinParser.HASH_MATERIAL_OVERRIDE
    · have hMfs : keyNotIn BinParser.HASH_MATERIAL_OVERRIDE fs = true := hfM ▸ hni
      have hfind : find_field (f :: fs) BinParser.HASH_MATERIAL_OVERRIDE = some f := by
        simp [find_field, hfM]
      rw [List.foldl_cons, smpFold_noop idx fs _ hTs hMfs, BinParser.moStep, hfind]
      rw [overridesOK, hfind] at hov
      have hstep : RitobinDll.smpField idx res f =
          (match f.2 with
           | .list ovs => ovs.foldl (RitobinDll.processOverride idx) res
           | _ => res) := by
        simp [RitobinDll.smpField, hfT, hfM]
      rw [hstep]
      rcases f with ⟨fk, fv⟩
      cases fv with
      | list ovs =>
        dsimp only at hov ⊢
        exact (overrideFold_eq idx hidx ovs hov res).symm
      | _ => rfl
    · have hfind : find_field (f :: fs) BinParser.HASH_MATERIAL_OVERRIDE =
          find_field fs BinParser.HASH_MATERIAL_OVERRIDE := by
        simp [find_field, hfM]
      have hovs : overridesOK fs = true := by
        rw [overridesOK] at hov ⊢
        rw [hfind] at hov
        exact hov
      have hstep : RitobinDll.smpField idx res f = res := by
        simp [RitobinDll.smpField, hfT, hfM]
      rw [List.foldl_cons, hstep, ih res hnds hTs hovs]
      rw [BinParser.moStep, BinParser.moStep, hfind]

end BinEquiv

namespace BinEquiv

open Bin

/-- Agreeable `skinMeshProperties` objects are processed identically:
`bin_parser.cpp` does the `BASE` step and then the override step, which
matches `ritobin_dll.cpp`'s stored-order field loop because `TEXTURE`
precedes `MATERIAL_OVERRIDE`. -/
theorem processSmp_eq (idx : Idx)
    (hidx : ∀ h items, idxFind idx h = some items → samplerOK items = true)
    (s : Fields) :
    ∀ res, keysNodup s = true → texBeforeOverride s = true → overridesOK s = true →
    BinParser.processSmp idx res s = RitobinDll.processSmp idx res s := by
  induction s with
  | nil => intro res _ _ _; rfl
  | cons f fs ih =>
    intro res hnd hord hov
    rw [keysNodup, Bool.and_eq_true] at hnd
    obtain ⟨hni, hnds⟩ := hnd
    rw [texBeforeOverride, Bool.and_eq_true] at hord
    obtain ⟨hordf, hords⟩ := hord
    by_cases hfT : f.1 = BinParser.HASH_TEXTURE
    · have hTfs : noTexKey fs = true := by rw [noTexKey]; exact hfT ▸ hni
      have hMne : ¬(f.1 = BinParser.HASH_MATERIAL_OVERRIDE) := by rw [hfT]; decide
      have hfindT : find_field (f :: fs) BinParser.HASH_TEXTURE = some f := by
        simp [find_field, hfT]
      have hfindM : find_field (f :: fs) BinParser.HASH_MATERIAL_OVERRIDE =
          find_field fs BinParser.HASH_MATERIAL_OVERRIDE := by
        simp [find_field, hMne]
      have hovfs : overridesOK fs = true := by
        rw [overridesOK] at hov ⊢
        rw [hfindM] at hov
        exact hov
      have hmo : BinParser.moStep idx
          (if BinParser.get_string f.2 ≠ "" then
            upsert res "BASE" (BinParser.get_string f.2) else res) (f :: fs) =
          BinParser.moStep idx
          (if BinParser.get_string f.2 ≠ "" then
            upsert res "BASE" (BinParser.get_string f.2) else res) fs := by
        rw [BinParser.moStep, BinParser.moStep, hfindM]
      have hstep : RitobinDll.smpField idx res f =
          (if BinParser.get_string f.2 ≠ "" then
            upsert res "BASE" (BinParser.get_string f.2) else res) := by
        simp [RitobinDll.smpField, hfT, hMne, get_string_eq]
      rw [BinParser.processSmp, BinParser.baseStep, hfindT]
      dsimp only
      rw [hmo, RitobinDll.processSmp, List.foldl_cons, hstep,
        moFold_eq idx hidx fs _ hnds hTfs hovfs]
    · by_cases hfM : f.1 = BinParser.HASH_MATERIAL_OVERRIDE
      · have hTfs : noTexKey fs = true := by
          have := hordf
          rw [if_pos hfM] at this
          exact this
        have hMfs : keyNotIn BinParser.HASH_MATERIAL_OVERRIDE fs = true := hfM ▸ hni
        have hfindT : find_field (f :: fs) BinParser.HASH_TEXTURE = none := by
          rw [find_field, if_neg hfT]
          rw [noTexKey] at hTfs
          exact find_none_of_keyNotIn _ _ hTfs
        have hfindM : find_field (f :: fs) BinParser.HASH_MATERIAL_OVERRIDE = some f := by
          simp [find_field, hfM]
        rw [BinParser.processSmp, BinParser.baseStep, hfindT, BinParser.moStep, hfindM]
        rw [RitobinDll.processSmp, List.foldl_cons]
        have hstep : RitobinDll.smpField idx res f =
            (match f.2 with
             | .list ovs => ovs.foldl (RitobinDll.processOverride idx) res
             | _ => res) := by
          simp [RitobinDll.smpField, hfT, hfM]
        rw [hstep]
        rw [overridesOK, hfindM] at hov
        rcases f with ⟨fk, fv⟩
        cases fv with
        | list ovs =>
          dsimp only at hov ⊢
          rw [smpFold_noop idx fs _ hTfs hMfs]
          exact overrideFold_eq idx hidx ovs hov res
        | _ =>
          dsimp only
          rw [smpFold_noop idx fs _ hTfs hMfs]
      · have hfindT : find_field (f :: fs) BinParser.HASH_TEXTURE =
            find_field fs BinParser.HASH_TEXTURE := by
          simp [find_field, hfT]
        have hfindM : find_field (f :: fs) BinParser.HASH_MATERIAL_OVERRIDE =
            find_field fs BinParser.HASH_MATERIAL_OVERRIDE := by
          simp [find_field, hfM]
        have hovfs : overridesOK fs = true := by
          rw [overridesOK] at hov ⊢
          rw [hfindM] at hov
          exact hov
        have hB : BinParser.processSmp idx res (f :: fs) =
            BinParser.processSmp idx res fs := by
          rw [BinParser.processSmp, BinParser.processSmp, BinParser.baseStep,
            BinParser.baseStep, hfindT, BinParser.moStep, BinParser.moStep, hfindM]
        have hstep : RitobinDll.smpField idx res f = res := by
          simp [RitobinDll.smpField, hfT, hfM]
        rw [hB, RitobinDll.processSmp, List.foldl_cons, hstep]
        exact ih res hnds hords hovfs

/-- Fields not keyed `SKIN_MESH_PROPERTIES` are inert in the entry
loop of `ritobin_dll.cpp`. -/
theorem entryFold_noop (idx : Idx) (fs : Fields) :
    ∀ res, keyNotIn BinParser.HASH_SKIN_MESH_PROPERTIES fs = true →
    fs.foldl (RitobinDll.entryField idx) res = res := by
  induction fs with
  | nil => intro res _; rfl
  | cons f fs ih =>
    intro res h
    rw [keyNotIn, Bool.and_eq_true, bne_iff_ne] at h
    have hstep : RitobinDll.entryField idx res f = res := by
      simp [RitobinDll.entryField, h.1]
    rw [List.foldl_cons, hstep]
    exact ih res h.2

/-- Agreeable entries are processed identically: with distinct keys the
single `SKIN_MESH_PROPERTIES` field that `bin_parser.cpp` looks up is
the only one `ritobin_dll.cpp`'s loop acts on. -/
theorem processEntry_eq (idx : Idx)
    (hidx : ∀ h items, idxFind idx h = some items → samplerOK items = true)
    (res : Results) (v : Value)
    (h : (match get_embed v with
          | some items => wfEntryItems items
          | none => true) = true) :
    BinParser.processEntry idx res v = RitobinDll.processEntry idx res v := by
  rcases hv : get_embed v with _ | items
  · rw [BinParser.processEntry, RitobinDll.processEntry, hv]
  · rw [hv] at h
    dsimp only at h
    rw [wfEntryItems, Bool.and_eq_true] at h
    obtain ⟨hnd, hsmp⟩ := h
    rw [BinParser.processEntry, RitobinDll.processEntry, hv]
    dsimp only
    clear hv
    induction items generalizing res with
    | nil => rfl
    | cons f fs ih =>
      rw [keysNodup, Bool.and_eq_true] at hnd
      obtain ⟨hni, hnds⟩ := hnd
      by_cases hfS : f.1 = BinParser.HASH_SKIN_MESH_PROPERTIES
      · have hSfs : keyNotIn BinParser.HASH_SKIN_MESH_PROPERTIES fs = true :=
          hfS ▸ hni
        have hfind : find_field (f :: fs) BinParser.HASH_SKIN_MESH_PROPERTIES =
            some f := by
          simp [find_field, hfS]
        rw [hfind] at hsmp
        rw [hfind, List.foldl_cons]
        dsimp only at hsmp ⊢
        have hstep : RitobinDll.entryField idx res f =
            (match get_embed f.2 with
             | some smpItems => RitobinDll.processSmp idx res smpItems
             | none => res) := by
          simp [RitobinDll.entryField, hfS]
        rw [hstep]
        rcases hsv : get_embed f.2 with _ | smpItems
        · dsimp only
          exact (entryFold_noop idx fs res hSfs).symm
        · rw [hsv] at hsmp
          dsimp only at hsmp ⊢
          simp only [wfSmpItems, Bool.and_eq_true] at hsmp
          rw [entryFold_noop idx fs _ hSfs]
          exact processSmp_eq idx hidx smpItems res hsmp.1.1 hsmp.1.2 hsmp.2
      · have hfind : find_field (f :: fs) BinParser.HASH_SKIN_MESH_PROPERTIES =
            find_field fs BinParser.HASH_SKIN_MESH_PROPERTIES := by
          simp [find_field, hfS]
        rw [hfind] at hsmp
        have hstep : RitobinDll.entryField idx res f = res := by
          simp [RitobinDll.entryField, hfS]
        rw [hfind, List.foldl_cons, hstep]
        exact ih res hnds hsmp

end BinEquiv

namespace BinEquiv

open Bin

theorem idxFind_upsert (idx : Idx) (h : Nat) (e : Fields) (h' : Nat) :
    idxFind (idxUpsert idx h e) h' =
      (if h = h' then some e else idxFind idx h') := by
  induction idx with
  | nil =>
    by_cases heq : h = h' <;> simp [idxUpsert, idxFind, heq]
  | cons p idx ih =>
    rcases p with ⟨h0, e0⟩
    rw [idxUpsert]
    by_cases h0h : h0 = h
    · subst h0h
      by_cases heq : h0 = h' <;> simp [idxFind, heq]
    · rw [if_neg h0h]
      by_cases h0h' : h0 = h'
      · subst h0h'
        have hne : ¬(h = h0) := fun hh => h0h hh.symm
        simp [idxFind, hne]
      · simp [idxFind, h0h', ih]

/-- Every entry reachable through the index built from an agreeable
entries mapping has an agreeable sampler field. -/
theorem buildIdx_samplerOK (pairs : List (Value × Value))
    (hall : pairs.all wfPair = true) :
    ∀ h items, idxFind (buildEntriesIndex pairs) h = some items →
      samplerOK items = true := by
  rw [buildEntriesIndex]
  suffices haux : ∀ (idx0 : Idx),
      (∀ h items, idxFind idx0 h = some items → samplerOK items = true) →
      ∀ h items, idxFind (pairs.foldl indexStep idx0) h = some items →
        samplerOK items = true by
    exact haux [] (by intro h items hf; simp [idxFind] at hf)
  induction pairs with
  | nil => intro idx0 h0; simpa using h0
  | cons p ps ih =>
    intro idx0 h0
    simp only [List.all_cons, Bool.and_eq_true] at hall
    rw [List.foldl_cons]
    refine ih hall.2 _ ?_
    intro h items hf
    rcases p with ⟨pk, pv⟩
    have hwp := hall.1
    cases pk <;> cases pv <;> simp only [indexStep] at hf <;>
      try exact h0 _ _ hf
    rename_i hk t pitems
    rw [idxFind_upsert] at hf
    by_cases heq : hk = h
    · rw [if_pos heq] at hf
      cases hf
      rw [wfPair] at hwp
      dsimp only [Bin.get_embed] at hwp
      rw [Bool.and_eq_true] at hwp
      exact hwp.2
    · rw [if_neg heq] at hf
      exact h0 _ _ hf

end BinEquiv

namespace BinEquiv

open Bin

/-- Entry folds over agreeable pairs coincide. -/
theorem entriesFold_eq (idx : Idx)
    (hidx : ∀ h items, idxFind idx h = some items → samplerOK items = true)
    (pairs : List (Value × Value)) (hall : pairs.all wfPair = true) :
    ∀ res, pairs.foldl (fun res p => BinParser.processEntry idx res p.2) res =
      pairs.foldl (fun res p => RitobinDll.processEntry idx res p.2) res := by
  induction pairs with
  | nil => intro res; rfl
  | cons p ps ih =>
    intro res
    simp only [List.all_cons, Bool.and_eq_true] at hall
    have hwf : (match get_embed p.2 with
        | some items => wfEntryItems items
        | none => true) = true := by
      have hp := hall.1
      rw [wfPair] at hp
      rcases hv : Bin.get_embed p.2 with _ | items
      · rfl
      · rw [hv] at hp
        dsimp only at hp ⊢
        rw [Bool.and_eq_true] at hp
        exact hp.1
    rw [List.foldl_cons, List.foldl_cons]
    rw [processEntry_eq idx hidx res p.2 hwf]
    exact ih hall.2 _

end BinEquiv

/-- C10 (amended: the two extraction implementations are *not*
observationally equivalent in general — they diverge exactly on the
features the claim lists: `bin_parser.cpp` alone scans `ListB`-encoded
`SAMPLER_VALUES`, `ritobin_dll.cpp` alone accepts a `HashId`-valued
`MATERIAL_LINK`, and duplicate field hashes resolve first-match in one
and last-match in the other; additionally only `bin_parser.cpp` fixes
the `BASE` step before the overrides.  On documents avoiding those
triggers — distinct field hashes per object, `Link`-valued
`MATERIAL_LINK`, no `ListB` `SAMPLER_VALUES`, `TEXTURE` stored before
`MATERIAL_OVERRIDE` — the two extractors return identical mappings). -/
theorem C10_extractors_agree (bin : List (String × Bin.Value))
    (h : BinEquiv.wfDoc bin = true) :
    BinParser.extract_textures bin = RitobinDll.extract_textures bin := by
  rw [BinParser.extract_textures, RitobinDll.extract_textures]
  rcases hs : Bin.sectionFind bin "entries" with _ | v
  · rfl
  · cases v
    case map pairs =>
      dsimp only
      rw [BinEquiv.wfDoc, hs] at h
      dsimp only at h
      exact BinEquiv.entriesFold_eq (Bin.buildEntriesIndex pairs)
        (BinEquiv.buildIdx_samplerOK pairs h) pairs h []
    all_goals rfl

/-- Witness for C10: a document with a linked override (resolved
through the index) plus a `BASE` texture, satisfying the agreement
conditions; both extractors yield the same mapping. -/
theorem C10_extractors_agree_witness :
    BinParser.extract_textures
      [("entries", Bin.Value.map
        [(.hash 1, .embed 7 [(0x45ff5904, .embed 8
            [(0x3c6468f4, .text "base.dds"),
             (0x24725910, .list
               [.embed 9 [(0xaad7612c, .text "m"), (0xd2e4d060, .link 2)]])])]),
         (.hash 2, .embed 10 [(0x0a6f0eb5, .list
            [.embed 11 [(0xb311d4ef, .text "Diffuse_Texture"),
                        (0xf0a363e3, .text "linked.dds")]])])])] =
    RitobinDll.extract_textures
      [("entries", Bin.Value.map
        [(.hash 1, .embed 7 [(0x45ff5904, .embed 8
            [(0x3c6468f4, .text "base.dds"),
             (0x24725910, .list
               [.embed 9 [(0xaad7612c, .text "m"), (0xd2e4d060, .link 2)]])])]),
         (.hash 2, .embed 10 [(0x0a6f0eb5, .list
            [.embed 11 [(0xb311d4ef, .text "Diffuse_Texture"),
                        (0xf0a363e3, .text "linked.dds")]])])])] :=
  C10_extractors_agree _ (by decide)

/-- Counterexample to C10 as stated: on a document whose override's
`MATERIAL_LINK` is a `HashId` (not a `Link`), `bin_parser.cpp` extracts
nothing (`get_link` returns 0 for a `Hash`) while `ritobin_dll.cpp`
resolves the link (`get_hash_value` accepts a `Hash`): the two
mappings differ. -/
theorem C10_counterexample_hash_link :
    BinParser.extract_textures
      [("entries", Bin.Value.map
        [(.hash 1, .embed 7 [(0x45ff5904, .embed 8 [(0x24725910, .list
            [.embed 9 [(0xaad7612c, .text "m"), (0xd2e4d060, .hash 2)]])])]),
         (.hash 2, .embed 10 [(0x0a6f0eb5, .list
            [.embed 11 [(0xb311d4ef, .text "Diffuse_Texture"),
                        (0xf0a363e3, .text "linked.dds")]])])])] = [] ∧
    RitobinDll.extract_textures
      [("entries", Bin.Value.map
        [(.hash 1, .embed 7 [(0x45ff5904, .embed 8 [(0x24725910, .list
            [.embed 9 [(0xaad7612c, .text "m"), (0xd2e4d060, .hash 2)]])])]),
         (.hash 2, .embed 10 [(0x0a6f0eb5, .list
            [.embed 11 [(0xb311d4ef, .text "Diffuse_Texture"),
                        (0xf0a363e3, .text "linked.dds")]])])])] =
      [("m", "linked.dds")] ∧
    (([] : Bin.Results) ≠ [("m", "linked.dds")]) := by
  refine ⟨?_, ?_, ?_⟩ <;> decide
